import Mathlib

/-!
# Verification of the jira-dependency-graph traversal core

Shallow embedding of `jira-dependency-graph.py`: the graph accumulator
(`JiraGraph`), issue nodes (`JiraNode`), the link-processing and traversal
functions (`process_link`, `walk` — here `walkFuel`, fuel-indexed), and the
pieces of the renderer that the verified properties touch.

Python strings are modelled as Lean `String`s, Python `set`s of strings as
lists with membership-guarded insertion, and Python `set`s of `JiraNode`
(whose `__eq__`/`__hash__` compare keys only) as lists with key-guarded
insertion that keeps the first-inserted element, exactly as CPython's
`set.add` does.  A fetch that raises (`response.raise_for_status()`) is
modelled as an `err` result that propagates, since no caller of `walk`
catches exceptions.  The remote service is a finite association list of
issue fields (`FetchPort`).
-/

set_option maxHeartbeats 1000000

/-- The double-quote character, written via its code point to keep string
literals readable. -/
def dquoteChar : Char := Char.ofNat 34

/-- The single-quote character. -/
def squoteChar : Char := Char.ofNat 39

/-- Python's `pat in s` substring test on strings. -/
def strContains (s pat : String) : Bool := decide (pat.data <:+: s.data)

/-- Python's `str.upper()` (character-wise, kernel-reducible). -/
def pyUpper (s : String) : String := String.mk (s.data.map Char.toUpper)

/-- Python's `str.strip()`: drop whitespace from both ends. -/
def pyStrip (s : String) : String :=
  String.mk (((s.data.dropWhile Char.isWhitespace).reverse.dropWhile Char.isWhitespace).reverse)

/-- `s.split(sep, 1)[0]`: the characters before the first occurrence of the
one-character separator (the whole string when absent). -/
def headSegment (sep : Char) (s : String) : String :=
  String.mk (s.data.takeWhile (fun c => c ≠ sep))

/-- `MAX_SUMMARY_LENGTH = 30` (line 16 of the source). -/
def MAX_SUMMARY_LENGTH : Nat := 30

/-- An issue `status` object: `status['name']` and
`status['statusCategory']['name']`. -/
structure Status where
  name : String
  categoryName : String
deriving DecidableEq, Repr

/-- The partial issue JSON embedded in a link's `outwardIssue`/`inwardIssue`
or in a `subtasks` entry: the walk reads only its key, status and issue
type. -/
structure IssueStub where
  key : String
  status : Status
  issuetypeName : String
deriving DecidableEq, Repr

/-- One entry of `fields['issuelinks']`: `link['type']` always carries both
an `outward` and an `inward` label; at most one of `outwardIssue` /
`inwardIssue` is present. -/
structure IssueLink where
  outwardIssue : Option IssueStub
  inwardIssue : Option IssueStub
  typeOutward : String
  typeInward : String
deriving DecidableEq, Repr

/-- The fields of a fetched issue that the program reads.  Optional fields
model `try`/`except` accessor paths (`team_name`, `sprint`,
`cab_datetime`): `none` means the access would raise and the accessor
returns `None`. -/
structure Fields where
  summary : String
  status : Status
  issuetypeName : String
  labels : Option (List String)
  teamName : Option String
  sprintName : Option String
  implementationDateTime : Option String
  subtasks : List IssueStub
  issuelinks : List IssueLink
deriving DecidableEq, Repr

/-- `JiraNode`: key, fields, browse URI and the mutable blocked flag. -/
structure JiraNode where
  key : String
  fields : Fields
  uri : String
  blockedFlag : Bool
deriving DecidableEq, Repr

/-- `status_text`: `status['statusCategory']['name'].upper()`. -/
def Fields.status_text (f : Fields) : String := pyUpper f.status.categoryName

/-- The `JiraNode` constructor: `__blocked = 'BLOCK' in self.status_text()`. -/
def JiraNode.make (key : String) (fields : Fields) (uri : String) : JiraNode :=
  { key := key, fields := fields, uri := uri,
    blockedFlag := strContains fields.status_text "BLOCK" }

def JiraNode.status_text (n : JiraNode) : String := n.fields.status_text

/-- `is_status_ignore`: status category text is in the ignore list. -/
def JiraNode.is_status_ignore (n : JiraNode) (ignore_states : List String) : Bool :=
  decide (n.status_text ∈ ignore_states)

/-- `block`: `self.__blocked |= block_or_blocked`. -/
def JiraNode.block (n : JiraNode) (b : Bool) : JiraNode :=
  { n with blockedFlag := n.blockedFlag || b }

/-- `issue_type`: `fields['issuetype']['name']`. -/
def JiraNode.issue_type (n : JiraNode) : String := n.fields.issuetypeName

/-- `is_type`: any of the given type names occurs (upper-cased substring)
in the issue type. -/
def JiraNode.is_type (n : JiraNode) (issue_types : List String) : Bool :=
  issue_types.any (fun t => strContains (pyUpper n.issue_type) (pyUpper t))

/-- `is_epic`: `is_type('EPIC')`. -/
def JiraNode.is_epic (n : JiraNode) : Bool := n.is_type ["EPIC"]

/-- `status_color`: colour from the status category, defaulting to white. -/
def JiraNode.status_color (n : JiraNode) : String :=
  if n.status_text = "IN PROGRESS" then "yellow"
  else if n.status_text = "DONE" then "green"
  else if n.status_text = "BLOCKED" then "red"
  else if n.status_text = "BLOCKS" then "red"
  else "white"

/-- `get_extra_decorations_for_status` always returns the empty string. -/
def JiraNode.get_extra_decorations_for_status (_ : JiraNode) : String := ""

/-- `shape`: graphviz shape from the exact issue type name. -/
def JiraNode.shape (n : JiraNode) : String :=
  if n.issue_type = "Epic" then "oval"
  else if n.issue_type = "Story" then "rect"
  else if n.issue_type = "Spike" then "rect"
  else if n.issue_type = "subtask" then "text"
  else if n.issue_type = "Task" then "MCircle"
  else if n.issue_type = "Certified" then "box3d"
  else "rect"

/-- `create_node_name`: the key, prefixed with the issue type unless the
type is in the no-prefix list. -/
def JiraNode.create_node_name (n : JiraNode) : String :=
  if n.issue_type ∈ ["Story", "Certified", "Task", "ACL (Access Control Language)"]
  then n.key
  else n.issue_type ++ " " ++ n.key

/-- Python `summary.replace('"', "'")` (line 494): single-character
replacement. -/
def replaceQuotes (s : String) : String :=
  String.mk (s.data.map (fun c => if c = dquoteChar then squoteChar else c))

/-- `get_node_summary` (lines 487-495): truncate past
`MAX_SUMMARY_LENGTH + 2` characters to `MAX_SUMMARY_LENGTH` plus `"..."`,
then replace double quotes by single quotes. -/
def Fields.get_node_summary (f : Fields) : String :=
  let summary := f.summary
  let summary :=
    if summary.length > MAX_SUMMARY_LENGTH + 2
    then String.mk (summary.data.take MAX_SUMMARY_LENGTH) ++ "..."
    else summary
  replaceQuotes summary

/-- `JiraNode.get_node_summary` reads `self.__fields['summary']`. -/
def JiraNode.get_node_summary (n : JiraNode) : String := n.fields.get_node_summary

/-- `cab_datetime`: `fields['Implementation Date/Time'].split('T', 1)[0]`,
`None` if the field path raises. -/
def JiraNode.cab_datetime (n : JiraNode) : Option String :=
  n.fields.implementationDateTime.map (fun s => headSegment 'T' s)

/-- `team_name`: `fields['Team Name'][0]['value']`, `None` on failure. -/
def JiraNode.team_name (n : JiraNode) : Option String := n.fields.teamName

/-- `sprint`: `fields['Sprint'][0]['name']`, `None` on failure. -/
def JiraNode.sprint (n : JiraNode) : Option String := n.fields.sprintName

/-- The `labels` part of `create_node_description`: `None` when the label
list is absent or empty, otherwise the nonempty labels joined with a
literal backslash-n, each prefixed with `#`. -/
def JiraNode.labelsPart (n : JiraNode) : Option String :=
  match n.fields.labels with
  | none => none
  | some l =>
    if l = [] then none
    else some (String.intercalate "\\n" ((l.filter (fun x => x ≠ "")).map (fun x => "#" ++ x)))

/-- `create_node_description`: name, team, sprint, implementation date,
summary and labels, the absent ones dropped, joined with a literal
backslash-n. -/
def JiraNode.create_node_description (n : JiraNode) : String :=
  String.intercalate "\\n"
    (([some n.create_node_name, n.team_name, n.sprint, n.cab_datetime,
       some n.get_node_summary, n.labelsPart]).filterMap id)

/-- `create_node_text` with `islink=False` (the only way `walk` renders a
node): the full graphviz node declaration line. -/
def JiraNode.create_node_text (n : JiraNode) : String :=
  "\"" ++ n.create_node_name ++ "\" [label=\"" ++ n.create_node_description ++
    "\", shape=\"" ++ n.shape ++ "\", href=\"" ++ n.uri ++
    "\", fillcolor=\"" ++ n.status_color ++ "\", style=filled " ++
    n.get_extra_decorations_for_status ++ "]"

/-- The graph accumulator.  `nodes` and `blocked` are Python sets of
`JiraNode` (equality on keys, first insertion wins); `links` and `seen`
are Python sets of strings. -/
structure JiraGraph where
  nodes : List JiraNode
  links : List String
  seen : List String
  blocked : List JiraNode
deriving DecidableEq, Repr

def emptyJiraGraph : JiraGraph := { nodes := [], links := [], seen := [], blocked := [] }

/-- Whether a node with the given key is present. -/
def hasNodeKey (l : List JiraNode) (k : String) : Bool := l.any (fun m => m.key == k)

/-- `add_blocked_node`: insert into the blocked set (key-keyed, no-op when
present). -/
def JiraGraph.add_blocked_node (g : JiraGraph) (n : JiraNode) : JiraGraph :=
  if hasNodeKey g.blocked n.key then g else { g with blocked := g.blocked ++ [n] }

/-- `add_issue_node`: insert into the node set, then also record the node
as blocked when its blocked flag is set. -/
def JiraGraph.add_issue_node (g : JiraGraph) (n : JiraNode) : JiraGraph :=
  let g := if hasNodeKey g.nodes n.key then g else { g with nodes := g.nodes ++ [n] }
  if n.blockedFlag then g.add_blocked_node n else g

/-- `add_link_node`: insert an edge declaration string. -/
def JiraGraph.add_link_node (g : JiraGraph) (e : String) : JiraGraph :=
  if decide (e ∈ g.links) then g else { g with links := g.links ++ [e] }

/-- `mark_as_seen`. -/
def JiraGraph.mark_as_seen (g : JiraGraph) (k : String) : JiraGraph :=
  if decide (k ∈ g.seen) then g else { g with seen := g.seen ++ [k] }

/-- `has_seen`. -/
def JiraGraph.has_seen (g : JiraGraph) (k : String) : Bool := decide (k ∈ g.seen)

/-- The sorted node declaration lines of `generate_digraph` (line 63). -/
def nodeLines (g : JiraGraph) : List String :=
  (g.nodes.map JiraNode.create_node_text).insertionSort (fun a b => a ≤ b)

/-- The sorted edge declaration lines of `generate_digraph` (line 64). -/
def linkLines (g : JiraGraph) : List String :=
  g.links.insertionSort (fun a b => a ≤ b)

/-- The blocked-emphasis lines of `generate_digraph` (line 65). -/
def blockedLines (g : JiraGraph) : List String :=
  g.blocked.map (fun n => "\"" ++ n.create_node_name ++ "\" [color=red, penwidth=2]")

example : strContains "XARC-5" "ARC-" = true := by decide
example : strContains "BRC-5" "ARC-" = false := by decide
example : Fields.get_node_summary
    { summary := "abc", status := ⟨"To Do", "To Do"⟩, issuetypeName := "Story",
      labels := none, teamName := none, sprintName := none,
      implementationDateTime := none, subtasks := [], issuelinks := [] } = "abc" := by decide

/-- The options consumed by `build_graph_data` (subset of the CLI surface
that the traversal reads; logging flags are I/O only and omitted). -/
structure JiraOptions where
  ignore_states : List String
  traverse : Bool
  issue_excludes : List String
  ignore_types : List String
  includes : String
  excludes : List String
  directions : List String
  show_directions : List String
  link_labels : List String
  ignore_epic : Bool
  ignore_subtasks : Bool
deriving DecidableEq, Repr

/-- The parser defaults for the fields above (lines 677-706). -/
def defaultOptions : JiraOptions :=
  { ignore_states := [], traverse := true, issue_excludes := [], ignore_types := [],
    includes := "", excludes := [], directions := ["inward", "outward"],
    show_directions := ["inward", "outward"], link_labels := [],
    ignore_epic := false, ignore_subtasks := false }

/-- The remote service seen by the traversal: a finite table of issue
fields, the epic-membership query, and the base URL used by
`get_issue_uri`. -/
structure FetchPort where
  entries : List (String × Fields)
  epic : String → List IssueStub
  base : String

/-- `get_mapped_issue_fields`/`get_issue`: `none` models a response whose
`raise_for_status()` raises. -/
def FetchPort.getFields (p : FetchPort) (k : String) : Option Fields :=
  (p.entries.find? (fun e => e.fst == k)).map (fun e => e.snd)

/-- The keys the port can resolve. -/
def portKeys (p : FetchPort) : List String := p.entries.map (fun e => e.fst)

/-- `get_issue_uri`. -/
def FetchPort.get_issue_uri (p : FetchPort) (k : String) : String :=
  p.base ++ "/browse/" ++ k

/-- The `JiraNode` that `walk` builds for a fetched issue (line 610-613). -/
def mkWalkNode (p : FetchPort) (key : String) (fields : Fields) : JiraNode :=
  JiraNode.make key fields (p.get_issue_uri key)

/-- The partial fields dictionary of an embedded issue (link target, epic
member or subtask): the walk reads only status and issue type from it. -/
def stubFields (st : IssueStub) : Fields :=
  { summary := "", status := st.status, issuetypeName := st.issuetypeName,
    labels := none, teamName := none, sprintName := none,
    implementationDateTime := none, subtasks := [], issuelinks := [] }

/-- The `JiraNode` built for an embedded issue. -/
def stubNode (base : String) (st : IssueStub) : JiraNode :=
  JiraNode.make st.key (stubFields st) (base ++ "/browse/" ++ st.key)

/-- `should_ignore_issue` (lines 526-535): excluded key, ignored type, or
ignored status category.  Python's truthiness guards
(`jira_options.issue_excludes and ...`) are equivalent to plain membership
since membership in an empty list is false. -/
def should_ignore_issue (o : JiraOptions) (n : JiraNode) : Bool :=
  decide (n.key ∈ o.issue_excludes) || decide (n.issue_type ∈ o.ignore_types) ||
    n.is_status_ignore o.ignore_states

/-- `get_extra_decorations_for_link_type` (lines 522-524). -/
def get_extra_decorations_for_link_type (link_type : String) : String :=
  if strContains (pyUpper link_type) "BLOCK" then ",color=\"red\", penwidth=4.0" else ""

/-- `'outwardIssue' in link` / `'inwardIssue' in link` dispatch at the top
of `process_link` (lines 547-552). -/
def linkDirection (l : IssueLink) : Option (String × IssueStub) :=
  match l.outwardIssue with
  | some st => some ("outward", st)
  | none =>
    match l.inwardIssue with
    | some st => some ("inward", st)
    | none => none

/-- `link_type = link['type'][direction]` (line 564). -/
def linkTypeOf (l : IssueLink) (dir : String) : String :=
  if dir = "outward" then l.typeOutward else l.typeInward

/-- `process_link` (lines 546-595).  Returns the possibly-updated graph
(blocked markers only) and what the Python function returns: `none` for a
skipped link, otherwise the linked key plus the optional edge
declaration. -/
def process_link (base : String) (o : JiraOptions) (g : JiraGraph) (node : JiraNode)
    (link : IssueLink) : JiraGraph × Option (String × Option String) :=
  match linkDirection link with
  | none => (g, none)
  | some (dir, stub) =>
    if ¬ (dir ∈ o.directions) then (g, none)
    else
      let linked_node := stubNode base stub
      if should_ignore_issue o linked_node then (g, none)
      else
        let link_type := linkTypeOf link dir
        if (¬ o.ignore_states.isEmpty) ∧ stub.status.name ∈ o.ignore_states then (g, none)
        else if ¬ (strContains stub.key o.includes) then (g, none)
        else if pyStrip link_type ∈ o.excludes then (g, some (stub.key, none))
        else
          let extra := get_extra_decorations_for_link_type link_type
          let edge_definition : Option String :=
            if ¬ (dir ∈ o.show_directions) then none
            else some ("\"" ++ node.create_node_name ++ "\"->\"" ++
              linked_node.create_node_name ++ "\"[label=\"" ++
              (if link_type ∈ o.link_labels then link_type else "") ++ "\"" ++ extra ++ "]")
          let blocked := strContains (pyUpper link_type) "BLOCK"
          let g := if blocked then
              (g.add_blocked_node (node.block true)).add_blocked_node (linked_node.block true)
            else g
          (g, some (stub.key, edge_definition))

/-- The epic-member loop of `walk` (lines 631-639): for each queried epic
member not policy-excluded, emit the orange membership edge and collect
the member's key. -/
def processEpicMembers (base : String) (o : JiraOptions) (node : JiraNode) :
    List IssueStub → JiraGraph → JiraGraph × List String
  | [], g => (g, [])
  | st :: rest, g =>
    let sn := stubNode base st
    if should_ignore_issue o sn then processEpicMembers base o node rest g
    else
      let g := g.add_link_node ("\"" ++ node.create_node_name ++ "\"->\"" ++
        sn.create_node_name ++ "\"[color=orange]")
      let r := processEpicMembers base o node rest g
      (r.1, st.key :: r.2)

/-- The subtask loop of `walk` (lines 641-650): blue child-to-parent edge
and the subtask's key. -/
def processSubtasks (base : String) (o : JiraOptions) (node : JiraNode) :
    List IssueStub → JiraGraph → JiraGraph × List String
  | [], g => (g, [])
  | st :: rest, g =>
    let sn := stubNode base st
    if should_ignore_issue o sn then processSubtasks base o node rest g
    else
      let g := g.add_link_node ("\"" ++ sn.create_node_name ++ "\"->\"" ++
        node.create_node_name ++ "\"[color=blue, label=\"subtask of\"]")
      let r := processSubtasks base o node rest g
      (r.1, st.key :: r.2)

/-- The link loop of `walk` (lines 652-662): append the linked key when
`process_link` returns one, and record the edge declaration when present. -/
def processLinks (base : String) (o : JiraOptions) (node : JiraNode) :
    List IssueLink → JiraGraph → JiraGraph × List String
  | [], g => (g, [])
  | l :: rest, g =>
    match process_link base o g node l with
    | (g1, none) => processLinks base o node rest g1
    | (g1, some (k, e)) =>
      let g2 := match e with
        | some ed => g1.add_link_node ed
        | none => g1
      let r := processLinks base o node rest g2
      (r.1, k :: r.2)

/-- The traversal state: the shared graph accumulator plus the ordered
log of issue keys for which `get_issue` was called. -/
structure WalkState where
  graph : JiraGraph
  log : List String
deriving DecidableEq, Repr

/-- Result of a (fuel-indexed) walk: normal return, an uncaught fetch
exception carrying the failing key, or fuel exhaustion. -/
inductive WRes where
  | ok (s : WalkState)
  | err (key : String) (s : WalkState)
  | out (s : WalkState)
deriving DecidableEq, Repr

/-- The state carried by any walk result. -/
def WRes.state : WRes → WalkState
  | .ok s => s
  | .err _ s => s
  | .out s => s

/-- The child loop at the end of `walk` (lines 668-669): Python's lazy
generator re-checks `has_seen` against the current graph at each
iteration; an uncaught exception aborts the remaining iterations. -/
def walkChildren (f : String → WalkState → WRes) : List String → WalkState → WRes
  | [], s => .ok s
  | c :: cs, s =>
    if s.graph.has_seen c then walkChildren f cs s
    else
      match f c s with
      | .ok s1 => walkChildren f cs s1
      | r => r

/-- `walk` (lines 615-670), indexed by fuel (recursion depth budget): fetch
the issue (logging the fetch), mark it seen, stop on an ignored status
category or on a foreign project when traversal is off, emit the node,
collect children from the epic query, the subtasks and the links, then
recurse on the children not yet seen. -/
def walkFuel : Nat → FetchPort → JiraOptions → String → String → WalkState → WRes
  | 0, _, _, _, _, s => .out s
  | Nat.succ fuel, p, o, pfx, key, s =>
    let log := s.log ++ [key]
    match p.getFields key with
    | none => .err key ⟨s.graph, log⟩
    | some fields =>
      let node := mkWalkNode p key fields
      let g := s.graph.mark_as_seen key
      if node.is_status_ignore o.ignore_states then .ok ⟨g, log⟩
      else if (!o.traverse) && (!(strContains key (pfx ++ "-"))) then .ok ⟨g, log⟩
      else
        let g := g.add_issue_node node
        let stubs := if node.is_epic && !o.ignore_epic then p.epic key else []
        let re := processEpicMembers p.base o node stubs g
        let rs := processSubtasks p.base o node
          (if o.ignore_subtasks then [] else fields.subtasks) re.1
        let rl := processLinks p.base o node fields.issuelinks rs.1
        walkChildren (fun c st => walkFuel fuel p o pfx c st)
          (re.2 ++ rs.2 ++ rl.2) ⟨rl.1, log⟩

/-- `project_prefix` (line 672): the part of a key before the first dash. -/
def project_prefix_of (k : String) : String := headSegment '-' k

/-- `build_graph_data` (lines 512-673), fuel-indexed: compute the starting
project prefix and walk the starting key. -/
def build_graph_data (fuel : Nat) (g : JiraGraph) (start_issue_key : String)
    (p : FetchPort) (o : JiraOptions) : WRes :=
  walkFuel fuel p o (project_prefix_of start_issue_key) start_issue_key ⟨g, []⟩

/-! ## Helper fixtures and elementary string lemmas -/

/-- A fields record carrying only a summary, used for concrete instances. -/
def plainFields (s : String) : Fields :=
  { summary := s, status := ⟨"To Do", "To Do"⟩, issuetypeName := "Story",
    labels := none, teamName := none, sprintName := none,
    implementationDateTime := none, subtasks := [], issuelinks := [] }

theorem replaceQuotes_eq_self {s : String} (h : ∀ c ∈ s.data, c ≠ dquoteChar) :
    replaceQuotes s = s := by
  unfold replaceQuotes
  have : s.data.map (fun c => if c = dquoteChar then squoteChar else c) = s.data.map id := by
    refine List.map_congr_left (fun c hc => ?_)
    simp [h c hc]
  rw [this, List.map_id]

theorem replaceQuotes_no_dquote (s : String) : ∀ c ∈ (replaceQuotes s).data, c ≠ dquoteChar := by
  intro c hc
  unfold replaceQuotes at hc
  simp only [List.mem_map] at hc
  obtain ⟨a, _, ha⟩ := hc
  by_cases h : a = dquoteChar
  · simp [h] at ha; rw [← ha]; decide
  · simp [h] at ha; rw [← ha]; exact h

theorem get_node_summary_no_dquote (f : Fields) :
    ∀ c ∈ f.get_node_summary.data, c ≠ dquoteChar := by
  unfold Fields.get_node_summary
  exact replaceQuotes_no_dquote _

/-! ## C6 / C10: summary formatting -/

/-- Claim C6 as stated is false: `get_node_summary` rewrites double quotes
even in short summaries.  A one-character summary consisting of a double
quote is under the length limit yet comes back changed. -/
theorem C6_counterexample :
    (plainFields "\"").summary.length ≤ MAX_SUMMARY_LENGTH + 2 ∧
    Fields.get_node_summary (plainFields "\"") ≠ (plainFields "\"").summary := by
  exact ⟨by decide, by decide⟩

/-- Claim C6 (amended): for a summary containing no double-quote character,
a summary of exactly `MAX_SUMMARY_LENGTH + 3` characters is truncated to the
first `MAX_SUMMARY_LENGTH` characters plus the three-character elision
marker, and a summary of `MAX_SUMMARY_LENGTH + 2` characters or fewer is
returned unmodified. -/
theorem C6_truncation_quote_free (f : Fields)
    (hq : ∀ c ∈ f.summary.data, c ≠ dquoteChar) :
    (f.summary.length = MAX_SUMMARY_LENGTH + 3 →
      f.get_node_summary = String.mk (f.summary.data.take MAX_SUMMARY_LENGTH) ++ "...") ∧
    (f.summary.length ≤ MAX_SUMMARY_LENGTH + 2 → f.get_node_summary = f.summary) := by
  constructor
  · intro hlen
    have hgt : f.summary.length > MAX_SUMMARY_LENGTH + 2 := by omega
    simp only [Fields.get_node_summary, if_pos hgt]
    apply replaceQuotes_eq_self
    intro c hc
    have hdata : (String.mk (f.summary.data.take MAX_SUMMARY_LENGTH) ++ "...").data =
        f.summary.data.take MAX_SUMMARY_LENGTH ++ ("..." : String).data := rfl
    rw [hdata] at hc
    rcases List.mem_append.mp hc with h1 | h1
    · exact hq c (List.mem_of_mem_take h1)
    · have hdots : ("..." : String).data = ['.', '.', '.'] := rfl
      rw [hdots] at h1
      simp only [List.mem_cons, List.not_mem_nil, or_false] at h1
      rcases h1 with h1 | h1 | h1 <;> (rw [h1]; decide)
  · intro hlen
    have hng : ¬ (f.summary.length > MAX_SUMMARY_LENGTH + 2) := by omega
    simp only [Fields.get_node_summary, if_neg hng]
    exact replaceQuotes_eq_self hq

/-- Witness for C6 (amended): a 33-character quote-free summary is
truncated; a short one is unchanged. -/
theorem C6_witness :
    Fields.get_node_summary (plainFields "abcdefghijklmnopqrstuvwxyz0123456") =
      String.mk ((plainFields "abcdefghijklmnopqrstuvwxyz0123456").summary.data.take
        MAX_SUMMARY_LENGTH) ++ "..." ∧
    Fields.get_node_summary (plainFields "short") = (plainFields "short").summary :=
  ⟨(C6_truncation_quote_free _ (by decide)).1 (by decide),
   (C6_truncation_quote_free _ (by decide)).2 (by decide)⟩

/-- Claim C10: `get_node_summary` leaves no double quote in its result —
every double quote is replaced — so a short summary containing a double
quote is not returned unchanged. -/
theorem C10_dquote_replaced (f : Fields) :
    (∀ c ∈ f.get_node_summary.data, c ≠ dquoteChar) ∧
    (dquoteChar ∈ f.summary.data → f.summary.length ≤ MAX_SUMMARY_LENGTH + 2 →
      f.get_node_summary ≠ f.summary) := by
  refine ⟨get_node_summary_no_dquote f, fun hmem _ heq => ?_⟩
  have hd : dquoteChar ∈ f.get_node_summary.data := by rw [heq]; exact hmem
  exact get_node_summary_no_dquote f dquoteChar hd rfl

/-- Witness for C10 at a concrete short summary containing a quote. -/
theorem C10_witness :
    Fields.get_node_summary (plainFields "a\"b") ≠ (plainFields "a\"b").summary :=
  (C10_dquote_replaced (plainFields "a\"b")).2 (by decide) (by decide)

/-! ## C8: idempotent insertion and duplicate-free rendering -/

theorem add_blocked_node_hasKey (g : JiraGraph) (n : JiraNode) :
    hasNodeKey (g.add_blocked_node n).blocked n.key = true := by
  by_cases h : hasNodeKey g.blocked n.key = true
  · simpa [JiraGraph.add_blocked_node, h] using h
  · simp only [JiraGraph.add_blocked_node, h, if_neg, Bool.not_eq_true] at *
    simp [h, hasNodeKey]

theorem add_blocked_node_noop (g : JiraGraph) (n : JiraNode)
    (h : hasNodeKey g.blocked n.key = true) : g.add_blocked_node n = g := by
  simp [JiraGraph.add_blocked_node, h]

theorem add_blocked_node_nodes (g : JiraGraph) (n : JiraNode) :
    (g.add_blocked_node n).nodes = g.nodes := by
  unfold JiraGraph.add_blocked_node; split <;> rfl

theorem add_blocked_node_links (g : JiraGraph) (n : JiraNode) :
    (g.add_blocked_node n).links = g.links := by
  unfold JiraGraph.add_blocked_node; split <;> rfl

theorem add_blocked_node_seen (g : JiraGraph) (n : JiraNode) :
    (g.add_blocked_node n).seen = g.seen := by
  unfold JiraGraph.add_blocked_node; split <;> rfl

theorem add_blocked_idem (g : JiraGraph) (n : JiraNode) :
    (g.add_blocked_node n).add_blocked_node n = g.add_blocked_node n :=
  add_blocked_node_noop _ _ (add_blocked_node_hasKey g n)

theorem add_link_node_noop (g : JiraGraph) (e : String) (h : e ∈ g.links) :
    g.add_link_node e = g := by
  simp [JiraGraph.add_link_node, h]

theorem add_link_node_seen (g : JiraGraph) (e : String) :
    (g.add_link_node e).seen = g.seen := by
  unfold JiraGraph.add_link_node; split <;> rfl

theorem add_link_node_nodes (g : JiraGraph) (e : String) :
    (g.add_link_node e).nodes = g.nodes := by
  unfold JiraGraph.add_link_node; split <;> rfl

theorem add_link_node_blocked (g : JiraGraph) (e : String) :
    (g.add_link_node e).blocked = g.blocked := by
  unfold JiraGraph.add_link_node; split <;> rfl

theorem add_link_idem (g : JiraGraph) (e : String) :
    (g.add_link_node e).add_link_node e = g.add_link_node e := by
  by_cases h : e ∈ g.links
  · rw [add_link_node_noop g e h, add_link_node_noop g e h]
  · have h1 : g.add_link_node e = { g with links := g.links ++ [e] } := by
      simp [JiraGraph.add_link_node, h]
    rw [h1]
    apply add_link_node_noop
    simp

theorem add_issue_node_nodes (g : JiraGraph) (n : JiraNode) :
    (g.add_issue_node n).nodes =
      if hasNodeKey g.nodes n.key = true then g.nodes else g.nodes ++ [n] := by
  unfold JiraGraph.add_issue_node
  by_cases h : hasNodeKey g.nodes n.key = true <;> by_cases hb : n.blockedFlag = true <;>
    simp [h, hb, add_blocked_node_nodes]

theorem add_issue_node_hasKey (g : JiraGraph) (n : JiraNode) :
    hasNodeKey (g.add_issue_node n).nodes n.key = true := by
  rw [add_issue_node_nodes]
  by_cases h : hasNodeKey g.nodes n.key = true
  · rw [if_pos h]; exact h
  · rw [if_neg h]
    simp only [hasNodeKey, List.any_eq_true]
    exact ⟨n, by simp, by simp⟩

theorem add_issue_node_noop (g : JiraGraph) (n : JiraNode)
    (h1 : hasNodeKey g.nodes n.key = true)
    (h2 : n.blockedFlag = true → hasNodeKey g.blocked n.key = true) :
    g.add_issue_node n = g := by
  unfold JiraGraph.add_issue_node
  by_cases hb : n.blockedFlag = true
  · simp [h1, hb, add_blocked_node_noop g n (h2 hb)]
  · simp [h1, hb]

theorem add_issue_node_blocked_of_flag (g : JiraGraph) (n : JiraNode)
    (hb : n.blockedFlag = true) :
    hasNodeKey (g.add_issue_node n).blocked n.key = true := by
  unfold JiraGraph.add_issue_node
  by_cases h : hasNodeKey g.nodes n.key = true <;> simp [h, hb, add_blocked_node_hasKey]

theorem add_issue_idem (g : JiraGraph) (n : JiraNode) :
    (g.add_issue_node n).add_issue_node n = g.add_issue_node n := by
  apply add_issue_node_noop
  · exact add_issue_node_hasKey g n
  · exact fun hb => add_issue_node_blocked_of_flag g n hb

theorem add_link_node_nodup (g : JiraGraph) (e : String) (h : g.links.Nodup) :
    ((g.add_link_node e).links).Nodup := by
  by_cases he : e ∈ g.links
  · rw [add_link_node_noop g e he]; exact h
  · have h1 : g.add_link_node e = { g with links := g.links ++ [e] } := by
      simp [JiraGraph.add_link_node, he]
    rw [h1]
    refine List.Nodup.append h (by simp) ?_
    intro x hx hx2
    simp only [List.mem_singleton] at hx2
    rw [hx2] at hx
    exact he hx

theorem linkLines_nodup (g : JiraGraph) (h : g.links.Nodup) : (linkLines g).Nodup :=
  (List.perm_insertionSort _ g.links).nodup_iff.mpr h

theorem add_issue_keys_nodup (g : JiraGraph) (n : JiraNode)
    (h : (g.nodes.map JiraNode.key).Nodup) :
    (((g.add_issue_node n).nodes).map JiraNode.key).Nodup := by
  unfold JiraGraph.add_issue_node
  by_cases hk : hasNodeKey g.nodes n.key = true
  · by_cases hb : n.blockedFlag = true <;> simp [hk, hb, add_blocked_node_nodes, h]
  · have hnot : n.key ∉ g.nodes.map JiraNode.key := by
      intro hmem
      obtain ⟨m, hm, he⟩ := List.mem_map.mp hmem
      simp only [hasNodeKey, List.any_eq_true, Bool.not_eq_true] at hk
      exact hk ⟨m, hm, by simp [he]⟩
    have hap : ((g.nodes ++ [n]).map JiraNode.key).Nodup := by
      rw [List.map_append]
      refine List.Nodup.append h (by simp) ?_
      intro x hx hx2
      simp only [List.map_cons, List.map_nil, List.mem_singleton] at hx2
      rw [hx2] at hx
      exact hnot hx
    by_cases hb : n.blockedFlag = true <;>
      simp [hk, hb, add_blocked_node_nodes] <;> simpa using hap

theorem nodeLines_length (g : JiraGraph) : (nodeLines g).length = g.nodes.length := by
  unfold nodeLines
  rw [(List.perm_insertionSort _ _).length_eq, List.length_map]

/-- Claim C8: insertion into the node, edge and blocked collections is
idempotent (re-inserting an already-present declaration is a no-op), edge
insertion preserves duplicate-freeness so the rendered edge lines carry no
duplicates, node keys stay pairwise distinct so each node declaration
produces exactly one rendered line. -/
theorem C8_idempotent_insertion :
    (∀ (g : JiraGraph) (n : JiraNode), (g.add_issue_node n).add_issue_node n = g.add_issue_node n) ∧
    (∀ (g : JiraGraph) (e : String), (g.add_link_node e).add_link_node e = g.add_link_node e) ∧
    (∀ (g : JiraGraph) (n : JiraNode),
      (g.add_blocked_node n).add_blocked_node n = g.add_blocked_node n) ∧
    (∀ (g : JiraGraph) (e : String), e ∈ g.links → g.add_link_node e = g) ∧
    (∀ (g : JiraGraph) (n : JiraNode), hasNodeKey g.blocked n.key = true →
      g.add_blocked_node n = g) ∧
    (∀ (g : JiraGraph) (n : JiraNode), hasNodeKey g.nodes n.key = true →
      (n.blockedFlag = true → hasNodeKey g.blocked n.key = true) → g.add_issue_node n = g) ∧
    (∀ (g : JiraGraph) (e : String), g.links.Nodup → ((g.add_link_node e).links).Nodup) ∧
    (∀ g : JiraGraph, g.links.Nodup → (linkLines g).Nodup) ∧
    (∀ (g : JiraGraph) (n : JiraNode), (g.nodes.map JiraNode.key).Nodup →
      (((g.add_issue_node n).nodes).map JiraNode.key).Nodup) ∧
    (∀ g : JiraGraph, (nodeLines g).length = g.nodes.length) :=
  ⟨add_issue_idem, add_link_idem, add_blocked_idem, add_link_node_noop,
   add_blocked_node_noop, add_issue_node_noop, add_link_node_nodup,
   linkLines_nodup, add_issue_keys_nodup, nodeLines_length⟩

def wNode : JiraNode := JiraNode.make "W-1" (plainFields "w") "u/browse/W-1"

def wGraph : JiraGraph :=
  { nodes := [wNode], links := ["edge-w"], seen := ["W-1"], blocked := [] }

/-- Witness for C8: the hypothesised no-op and duplicate-freeness parts at
a concrete accumulator. -/
theorem C8_witness :
    wGraph.add_link_node "edge-w" = wGraph ∧
    wGraph.add_issue_node wNode = wGraph ∧
    ((wGraph.add_link_node "edge-2").links).Nodup ∧
    (linkLines wGraph).Nodup ∧
    (((wGraph.add_issue_node wNode).nodes).map JiraNode.key).Nodup :=
  ⟨C8_idempotent_insertion.2.2.2.1 wGraph "edge-w" (by decide),
   C8_idempotent_insertion.2.2.2.2.2.1 wGraph wNode (by decide) (by decide),
   C8_idempotent_insertion.2.2.2.2.2.2.1 wGraph "edge-2" (by decide),
   C8_idempotent_insertion.2.2.2.2.2.2.2.1 wGraph (by decide),
   C8_idempotent_insertion.2.2.2.2.2.2.2.2.1 wGraph wNode (by decide)⟩

/-! ## process_link lemmas -/

theorem process_link_snd_const (base : String) (o : JiraOptions) (node : JiraNode)
    (l : IssueLink) (g g' : JiraGraph) :
    (process_link base o g node l).2 = (process_link base o g' node l).2 := by
  unfold process_link
  rcases linkDirection l with _ | ⟨dir, stub⟩
  · rfl
  · dsimp only
    split
    · rfl
    · split
      · rfl
      · split
        · rfl
        · split
          · rfl
          · split
            · rfl
            · rfl

theorem process_link_seen (base : String) (o : JiraOptions) (g : JiraGraph)
    (node : JiraNode) (l : IssueLink) :
    ((process_link base o g node l).1).seen = g.seen := by
  unfold process_link
  rcases linkDirection l with _ | ⟨dir, stub⟩
  · rfl
  · dsimp only
    split
    · rfl
    · split
      · rfl
      · split
        · rfl
        · split
          · rfl
          · split
            · rfl
            · split
              · simp [add_blocked_node_seen]
              · rfl

theorem process_link_key_src (base : String) (o : JiraOptions) (g : JiraGraph)
    (node : JiraNode) (l : IssueLink) (k : String) (e : Option String)
    (h : (process_link base o g node l).2 = some (k, e)) :
    ∃ dir stub, linkDirection l = some (dir, stub) ∧ stub.key = k := by
  unfold process_link at h
  rcases hd : linkDirection l with _ | ⟨dir, stub⟩ <;> rw [hd] at h
  · simp at h
  · refine ⟨dir, stub, rfl, ?_⟩
    dsimp only at h
    split at h
    · simp at h
    · split at h
      · simp at h
      · split at h
        · simp at h
        · split at h
          · simp at h
          · split at h
            · simp only [Option.some.injEq, Prod.mk.injEq] at h
              exact h.1
            · simp only [Option.some.injEq, Prod.mk.injEq] at h
              exact h.1

theorem processLinks_snd_const (base : String) (o : JiraOptions) (node : JiraNode) :
    ∀ (ls : List IssueLink) (g g' : JiraGraph),
      (processLinks base o node ls g).2 = (processLinks base o node ls g').2 := by
  intro ls
  induction ls with
  | nil => intro g g'; rfl
  | cons l rest ih =>
    intro g g'
    have hsnd := process_link_snd_const base o node l g g'
    unfold processLinks
    rcases h1 : process_link base o g node l with ⟨g1, r1⟩
    rcases h2 : process_link base o g' node l with ⟨g2, r2⟩
    rw [h1, h2] at hsnd
    dsimp only at hsnd
    subst hsnd
    cases r1 with
    | none => exact ih _ _
    | some ke =>
      obtain ⟨k, e⟩ := ke
      dsimp only
      cases e with
      | none => exact congrArg (List.cons k) (ih _ _)
      | some ed => exact congrArg (List.cons k) (ih _ _)

theorem processLinks_seen (base : String) (o : JiraOptions) (node : JiraNode) :
    ∀ (ls : List IssueLink) (g : JiraGraph),
      ((processLinks base o node ls g).1).seen = g.seen := by
  intro ls
  induction ls with
  | nil => intro g; rfl
  | cons l rest ih =>
    intro g
    unfold processLinks
    rcases h1 : process_link base o g node l with ⟨g1, r1⟩
    have hse : g1.seen = g.seen := by
      have := process_link_seen base o g node l
      rw [h1] at this
      exact this
    cases r1 with
    | none => rw [ih g1, hse]
    | some ke =>
      obtain ⟨k, e⟩ := ke
      dsimp only
      cases e with
      | none => rw [ih g1, hse]
      | some ed => rw [ih (g1.add_link_node ed), add_link_node_seen, hse]

theorem processLinks_child_mem (base : String) (o : JiraOptions) (node : JiraNode)
    (l : IssueLink) (k : String) (e : Option String)
    (hsnd : (process_link base o emptyJiraGraph node l).2 = some (k, e)) :
    ∀ (ls : List IssueLink) (g : JiraGraph), l ∈ ls → k ∈ (processLinks base o node ls g).2 := by
  intro ls
  induction ls with
  | nil => intro g h; simp at h
  | cons l2 rest ih =>
    intro g hmem
    rcases List.mem_cons.mp hmem with heq | htail
    · have h2 : (process_link base o g node l2).2 = some (k, e) := by
        rw [← heq, process_link_snd_const base o node l g emptyJiraGraph, hsnd]
      unfold processLinks
      rcases h1 : process_link base o g node l2 with ⟨g1, r1⟩
      rw [h1] at h2
      dsimp only at h2
      subst h2
      simp
    · unfold processLinks
      rcases h1 : process_link base o g node l2 with ⟨g1, r1⟩
      cases r1 with
      | none => exact ih g1 htail
      | some ke =>
        obtain ⟨k2, e2⟩ := ke
        dsimp only
        refine List.mem_cons.mpr (Or.inr ?_)
        exact ih _ htail

theorem processLinks_children_src (base : String) (o : JiraOptions) (node : JiraNode) :
    ∀ (ls : List IssueLink) (g : JiraGraph), ∀ k ∈ (processLinks base o node ls g).2,
      ∃ l ∈ ls, ∃ dir stub, linkDirection l = some (dir, stub) ∧ stub.key = k := by
  intro ls
  induction ls with
  | nil => intro g k h; simp [processLinks] at h
  | cons l rest ih =>
    intro g k h
    unfold processLinks at h
    rcases h1 : process_link base o g node l with ⟨g1, r1⟩
    rw [h1] at h
    cases r1 with
    | none =>
      obtain ⟨l2, hl2, rest2⟩ := ih g1 k h
      exact ⟨l2, List.mem_cons.mpr (Or.inr hl2), rest2⟩
    | some ke =>
      obtain ⟨k2, e2⟩ := ke
      dsimp only at h
      rcases List.mem_cons.mp h with heq | htail
      · subst heq
        have := process_link_key_src base o g node l k e2 (by rw [h1])
        exact ⟨l, List.mem_cons.mpr (Or.inl rfl), this⟩
      · obtain ⟨l2, hl2, rest2⟩ := ih _ k htail
        exact ⟨l2, List.mem_cons.mpr (Or.inr hl2), rest2⟩

/-- `process_link` on a link that passes the direction, policy, state and
inclusion filters but whose (stripped) type label is in the exclusion set:
the graph is untouched, the linked key is returned, no edge is produced
(lines 572-573). -/
theorem process_link_excluded (base : String) (o : JiraOptions) (g : JiraGraph)
    (node : JiraNode) (l : IssueLink) (dir : String) (stub : IssueStub)
    (hdir : linkDirection l = some (dir, stub))
    (hmem : dir ∈ o.directions)
    (hig : should_ignore_issue o (stubNode base stub) = false)
    (hst : ¬ ((¬ o.ignore_states.isEmpty) ∧ stub.status.name ∈ o.ignore_states))
    (hinc : strContains stub.key o.includes = true)
    (hexc : pyStrip (linkTypeOf l dir) ∈ o.excludes) :
    process_link base o g node l = (g, some (stub.key, none)) := by
  unfold process_link
  rw [hdir]
  dsimp only
  rw [if_neg (by simp [hmem]), if_neg (by simp [hig]), if_neg hst,
    if_neg (by simp [hinc]), if_pos hexc]

/-- `process_link` on a link that passes every filter and whose type label
contains "BLOCK" after upper-casing: both endpoints are marked blocked and
the edge (when the direction is rendered) carries the red emphasis
decoration (lines 578-595). -/
theorem process_link_blocking (base : String) (o : JiraOptions) (g : JiraGraph)
    (node : JiraNode) (l : IssueLink) (dir : String) (stub : IssueStub)
    (hdir : linkDirection l = some (dir, stub))
    (hmem : dir ∈ o.directions)
    (hig : should_ignore_issue o (stubNode base stub) = false)
    (hst : ¬ ((¬ o.ignore_states.isEmpty) ∧ stub.status.name ∈ o.ignore_states))
    (hinc : strContains stub.key o.includes = true)
    (hexc : pyStrip (linkTypeOf l dir) ∉ o.excludes)
    (hblk : strContains (pyUpper (linkTypeOf l dir)) "BLOCK" = true) :
    process_link base o g node l =
      ((g.add_blocked_node (node.block true)).add_blocked_node
        ((stubNode base stub).block true),
       some (stub.key,
        if ¬ (dir ∈ o.show_directions) then none
        else some ("\"" ++ node.create_node_name ++ "\"->\"" ++
          (stubNode base stub).create_node_name ++ "\"[label=\"" ++
          (if linkTypeOf l dir ∈ o.link_labels then linkTypeOf l dir else "") ++
          "\"" ++ ",color=\"red\", penwidth=4.0" ++ "]"))) := by
  unfold process_link
  rw [hdir]
  dsimp only
  rw [if_neg (by simp [hmem]), if_neg (by simp [hig]), if_neg hst,
    if_neg (by simp [hinc]), if_neg hexc]
  unfold get_extra_decorations_for_link_type
  rw [if_pos hblk, if_pos hblk]

theorem add_blocked_node_hasKey_mono (g : JiraGraph) (n : JiraNode) (k : String)
    (h : hasNodeKey g.blocked k = true) :
    hasNodeKey (g.add_blocked_node n).blocked k = true := by
  unfold JiraGraph.add_blocked_node
  split
  · exact h
  · simp only [hasNodeKey, List.any_eq_true] at h ⊢
    obtain ⟨m, hm, he⟩ := h
    exact ⟨m, List.mem_append.mpr (Or.inl hm), he⟩

/-! ## C4: render exclusion keeps traversal, drops the edge -/

/-- Claim C4: a link passing the direction, policy, state and inclusion
filters whose type is in the exclusion set contributes its target key to
the child set while the graph gains no edge (and no blocked marker) from
that link. -/
theorem C4_render_exclusion (base : String) (o : JiraOptions) (g : JiraGraph)
    (node : JiraNode) (l : IssueLink) (dir : String) (stub : IssueStub)
    (hdir : linkDirection l = some (dir, stub))
    (hmem : dir ∈ o.directions)
    (hig : should_ignore_issue o (stubNode base stub) = false)
    (hst : ¬ ((¬ o.ignore_states.isEmpty) ∧ stub.status.name ∈ o.ignore_states))
    (hinc : strContains stub.key o.includes = true)
    (hexc : pyStrip (linkTypeOf l dir) ∈ o.excludes) :
    process_link base o g node l = (g, some (stub.key, none)) ∧
    processLinks base o node [l] g = (g, [stub.key]) ∧
    (∀ (ls : List IssueLink) (g2 : JiraGraph), l ∈ ls →
      stub.key ∈ (processLinks base o node ls g2).2) := by
  have h := process_link_excluded base o g node l dir stub hdir hmem hig hst hinc hexc
  refine ⟨h, ?_, ?_⟩
  · unfold processLinks
    rw [h]
    rfl
  · intro ls g2 hmem2
    apply processLinks_child_mem base o node l stub.key none _ ls g2 hmem2
    rw [process_link_snd_const base o node l emptyJiraGraph g, h]

/-! ## C5: blocking links -/

/-- Claim C5 (amended): a link that passes all skip filters and is not in
the exclusion set, whose type label contains "block" in any case, marks
both endpoints in the blocked set, and the edge emitted for it (when its
direction is rendered) carries the red emphasis decoration. -/
theorem C5_blocking_link_marks (base : String) (o : JiraOptions) (g : JiraGraph)
    (node : JiraNode) (l : IssueLink) (dir : String) (stub : IssueStub)
    (hdir : linkDirection l = some (dir, stub))
    (hmem : dir ∈ o.directions)
    (hig : should_ignore_issue o (stubNode base stub) = false)
    (hst : ¬ ((¬ o.ignore_states.isEmpty) ∧ stub.status.name ∈ o.ignore_states))
    (hinc : strContains stub.key o.includes = true)
    (hexc : pyStrip (linkTypeOf l dir) ∉ o.excludes)
    (hblk : strContains (pyUpper (linkTypeOf l dir)) "BLOCK" = true) :
    hasNodeKey ((process_link base o g node l).1).blocked node.key = true ∧
    hasNodeKey ((process_link base o g node l).1).blocked stub.key = true ∧
    (process_link base o g node l).2 = some (stub.key,
      if ¬ (dir ∈ o.show_directions) then none
      else some ("\"" ++ node.create_node_name ++ "\"->\"" ++
        (stubNode base stub).create_node_name ++ "\"[label=\"" ++
        (if linkTypeOf l dir ∈ o.link_labels then linkTypeOf l dir else "") ++
        "\"" ++ ",color=\"red\", penwidth=4.0" ++ "]")) := by
  rw [process_link_blocking base o g node l dir stub hdir hmem hig hst hinc hexc hblk]
  refine ⟨?_, ?_, rfl⟩
  · apply add_blocked_node_hasKey_mono
    exact add_blocked_node_hasKey g (node.block true)
  · exact add_blocked_node_hasKey _ ((stubNode base stub).block true)

/-! ## Concrete fixtures for witnesses and counterexamples -/

def stubOf (k : String) : IssueStub := ⟨k, ⟨"To Do", "To Do"⟩, "Story"⟩

/-- A link whose embedded issue sits on the outward side. -/
def outLink (t k : String) : IssueLink :=
  { outwardIssue := some (stubOf k), inwardIssue := none,
    typeOutward := t, typeInward := "inv " ++ t }

/-- A link whose embedded issue sits on the inward side. -/
def inLink (t k : String) : IssueLink :=
  { outwardIssue := none, inwardIssue := some (stubOf k),
    typeOutward := "inv " ++ t, typeInward := t }

def cexNode : JiraNode := JiraNode.make "A-1" (plainFields "a") "/browse/A-1"

/-- Witness for C4 at a concrete excluded link type. -/
theorem C4_witness :
    process_link "" { defaultOptions with excludes := ["is cloned by"] } emptyJiraGraph
      cexNode (outLink "is cloned by" "Q-2") = (emptyJiraGraph, some ("Q-2", none)) ∧
    processLinks "" { defaultOptions with excludes := ["is cloned by"] } cexNode
      [outLink "is cloned by" "Q-2"] emptyJiraGraph = (emptyJiraGraph, ["Q-2"]) :=
  ⟨(C4_render_exclusion "" _ emptyJiraGraph cexNode _ "outward" (stubOf "Q-2")
      (by decide) (by decide) (by decide) (by decide) (by decide) (by decide)).1,
   (C4_render_exclusion "" _ emptyJiraGraph cexNode _ "outward" (stubOf "Q-2")
      (by decide) (by decide) (by decide) (by decide) (by decide) (by decide)).2.1⟩

/-- Claim C5 as stated is false: a link whose type label contains "block"
(here "is blocked by") but is in the exclusion set is processed — its
target still enters the child set — yet neither endpoint is marked
blocked. -/
theorem C5_counterexample :
    strContains (pyUpper (linkTypeOf (inLink "is blocked by" "B-1") "inward")) "BLOCK" = true ∧
    process_link "" { defaultOptions with excludes := ["is blocked by"] } emptyJiraGraph
      cexNode (inLink "is blocked by" "B-1") = (emptyJiraGraph, some ("B-1", none)) ∧
    ((process_link "" { defaultOptions with excludes := ["is blocked by"] } emptyJiraGraph
      cexNode (inLink "is blocked by" "B-1")).1).blocked = [] := by
  refine ⟨by decide, by decide, by decide⟩

/-- Witness for C5 (amended) at a concrete "blocks" link. -/
theorem C5_witness :
    hasNodeKey ((process_link "" defaultOptions emptyJiraGraph cexNode
      (outLink "blocks" "B-2")).1).blocked "A-1" = true ∧
    hasNodeKey ((process_link "" defaultOptions emptyJiraGraph cexNode
      (outLink "blocks" "B-2")).1).blocked "B-2" = true ∧
    (process_link "" defaultOptions emptyJiraGraph cexNode
      (outLink "blocks" "B-2")).2 = some ("B-2",
      if ¬ ("outward" ∈ defaultOptions.show_directions) then none
      else some ("\"" ++ cexNode.create_node_name ++ "\"->\"" ++
        (stubNode "" (stubOf "B-2")).create_node_name ++ "\"[label=\"" ++
        (if linkTypeOf (outLink "blocks" "B-2") "outward" ∈ defaultOptions.link_labels
          then linkTypeOf (outLink "blocks" "B-2") "outward" else "") ++
        "\"" ++ ",color=\"red\", penwidth=4.0" ++ "]")) :=
  C5_blocking_link_marks "" defaultOptions emptyJiraGraph cexNode
    (outLink "blocks" "B-2") "outward" (stubOf "B-2")
    (by decide) (by decide) (by decide) (by decide) (by decide) (by decide) (by decide)

/-! ## walk unfolding lemmas -/

theorem mark_as_seen_nodes (g : JiraGraph) (k : String) :
    (g.mark_as_seen k).nodes = g.nodes := by
  unfold JiraGraph.mark_as_seen; split <;> rfl

theorem mark_as_seen_links (g : JiraGraph) (k : String) :
    (g.mark_as_seen k).links = g.links := by
  unfold JiraGraph.mark_as_seen; split <;> rfl

theorem mark_as_seen_blocked (g : JiraGraph) (k : String) :
    (g.mark_as_seen k).blocked = g.blocked := by
  unfold JiraGraph.mark_as_seen; split <;> rfl

theorem mem_mark_as_seen (g : JiraGraph) (k x : String) :
    x ∈ (g.mark_as_seen k).seen ↔ x ∈ g.seen ∨ x = k := by
  unfold JiraGraph.mark_as_seen
  by_cases h : k ∈ g.seen
  · rw [if_pos (by simp [h])]
    constructor
    · exact Or.inl
    · rintro (hx | rfl)
      · exact hx
      · exact h
  · rw [if_neg (by simp [h])]
    simp [List.mem_append]

theorem mem_mark_as_seen_self (g : JiraGraph) (k : String) :
    k ∈ (g.mark_as_seen k).seen :=
  (mem_mark_as_seen g k k).mpr (Or.inr rfl)

theorem mem_mark_as_seen_of_mem (g : JiraGraph) (k x : String) (h : x ∈ g.seen) :
    x ∈ (g.mark_as_seen k).seen :=
  (mem_mark_as_seen g k x).mpr (Or.inl h)

theorem add_issue_node_seen (g : JiraGraph) (n : JiraNode) :
    (g.add_issue_node n).seen = g.seen := by
  unfold JiraGraph.add_issue_node
  by_cases h : hasNodeKey g.nodes n.key = true <;> by_cases hb : n.blockedFlag = true <;>
    simp [h, hb, add_blocked_node_seen]

theorem processEpicMembers_seen (base : String) (o : JiraOptions) (node : JiraNode) :
    ∀ (stubs : List IssueStub) (g : JiraGraph),
      ((processEpicMembers base o node stubs g).1).seen = g.seen := by
  intro stubs
  induction stubs with
  | nil => intro g; rfl
  | cons st rest ih =>
    intro g
    unfold processEpicMembers
    by_cases h : should_ignore_issue o (stubNode base st) = true
    · simp only [h, if_true]
      exact ih g
    · simp only [h, if_false, Bool.false_eq_true]
      rw [ih, add_link_node_seen]

theorem processSubtasks_seen (base : String) (o : JiraOptions) (node : JiraNode) :
    ∀ (stubs : List IssueStub) (g : JiraGraph),
      ((processSubtasks base o node stubs g).1).seen = g.seen := by
  intro stubs
  induction stubs with
  | nil => intro g; rfl
  | cons st rest ih =>
    intro g
    unfold processSubtasks
    by_cases h : should_ignore_issue o (stubNode base st) = true
    · simp only [h, if_true]
      exact ih g
    · simp only [h, if_false, Bool.false_eq_true]
      rw [ih, add_link_node_seen]

theorem processEpicMembers_children (base : String) (o : JiraOptions) (node : JiraNode) :
    ∀ (stubs : List IssueStub) (g : JiraGraph),
      ∀ k ∈ (processEpicMembers base o node stubs g).2, ∃ st ∈ stubs, st.key = k := by
  intro stubs
  induction stubs with
  | nil => intro g k h; simp [processEpicMembers] at h
  | cons st rest ih =>
    intro g k h
    unfold processEpicMembers at h
    by_cases hig : should_ignore_issue o (stubNode base st) = true
    · simp only [hig, if_true] at h
      obtain ⟨st2, h2, h3⟩ := ih g k h
      exact ⟨st2, List.mem_cons.mpr (Or.inr h2), h3⟩
    · simp only [hig, if_false, Bool.false_eq_true] at h
      rcases List.mem_cons.mp h with heq | htail
      · exact ⟨st, List.mem_cons.mpr (Or.inl rfl), heq.symm⟩
      · obtain ⟨st2, h2, h3⟩ := ih _ k htail
        exact ⟨st2, List.mem_cons.mpr (Or.inr h2), h3⟩

theorem processSubtasks_children (base : String) (o : JiraOptions) (node : JiraNode) :
    ∀ (stubs : List IssueStub) (g : JiraGraph),
      ∀ k ∈ (processSubtasks base o node stubs g).2, ∃ st ∈ stubs, st.key = k := by
  intro stubs
  induction stubs with
  | nil => intro g k h; simp [processSubtasks] at h
  | cons st rest ih =>
    intro g k h
    unfold processSubtasks at h
    by_cases hig : should_ignore_issue o (stubNode base st) = true
    · simp only [hig, if_true] at h
      obtain ⟨st2, h2, h3⟩ := ih g k h
      exact ⟨st2, List.mem_cons.mpr (Or.inr h2), h3⟩
    · simp only [hig, if_false, Bool.false_eq_true] at h
      rcases List.mem_cons.mp h with heq | htail
      · exact ⟨st, List.mem_cons.mpr (Or.inl rfl), heq.symm⟩
      · obtain ⟨st2, h2, h3⟩ := ih _ k htail
        exact ⟨st2, List.mem_cons.mpr (Or.inr h2), h3⟩

theorem walkFuel_fetch_fail (fuel : Nat) (p : FetchPort) (o : JiraOptions)
    (pfx key : String) (s : WalkState) (hf : p.getFields key = none) :
    walkFuel (fuel + 1) p o pfx key s = .err key ⟨s.graph, s.log ++ [key]⟩ := by
  unfold walkFuel
  rw [hf]

theorem walkFuel_status_stop (fuel : Nat) (p : FetchPort) (o : JiraOptions)
    (pfx key : String) (s : WalkState) (fields : Fields)
    (hf : p.getFields key = some fields)
    (hig : (mkWalkNode p key fields).is_status_ignore o.ignore_states = true) :
    walkFuel (fuel + 1) p o pfx key s = .ok ⟨s.graph.mark_as_seen key, s.log ++ [key]⟩ := by
  unfold walkFuel
  rw [hf]
  simp [hig]

theorem walkFuel_traverse_stop (fuel : Nat) (p : FetchPort) (o : JiraOptions)
    (pfx key : String) (s : WalkState) (fields : Fields)
    (hf : p.getFields key = some fields)
    (hig : (mkWalkNode p key fields).is_status_ignore o.ignore_states = false)
    (htr : ((!o.traverse) && (!(strContains key (pfx ++ "-")))) = true) :
    walkFuel (fuel + 1) p o pfx key s = .ok ⟨s.graph.mark_as_seen key, s.log ++ [key]⟩ := by
  unfold walkFuel
  rw [hf]
  simp [hig, htr]

theorem walkFuel_main (fuel : Nat) (p : FetchPort) (o : JiraOptions)
    (pfx key : String) (s : WalkState) (fields : Fields)
    (hf : p.getFields key = some fields)
    (hig : (mkWalkNode p key fields).is_status_ignore o.ignore_states = false)
    (htr : ((!o.traverse) && (!(strContains key (pfx ++ "-")))) = false) :
    walkFuel (fuel + 1) p o pfx key s =
      (let node := mkWalkNode p key fields
       let g := (s.graph.mark_as_seen key).add_issue_node node
       let stubs := if node.is_epic && !o.ignore_epic then p.epic key else []
       let re := processEpicMembers p.base o node stubs g
       let rs := processSubtasks p.base o node
         (if o.ignore_subtasks then [] else fields.subtasks) re.1
       let rl := processLinks p.base o node fields.issuelinks rs.1
       walkChildren (fun c st => walkFuel fuel p o pfx c st)
         (re.2 ++ rs.2 ++ rl.2) ⟨rl.1, s.log ++ [key]⟩) := by
  rw [walkFuel]
  rw [hf]
  simp only [hig, htr, Bool.false_eq_true, if_false]

theorem walkChildren_log_extend (f : String → WalkState → WRes)
    (hf : ∀ c s1, ∃ u, (f c s1).state.log = s1.log ++ u) :
    ∀ (cs : List String) (s : WalkState), ∃ u, (walkChildren f cs s).state.log = s.log ++ u := by
  intro cs
  induction cs with
  | nil => intro s; exact ⟨[], by simp [walkChildren, WRes.state]⟩
  | cons c rest ih =>
    intro s
    unfold walkChildren
    by_cases h : s.graph.has_seen c = true
    · simp only [h, if_true]
      exact ih s
    · simp only [h, if_false, Bool.false_eq_true]
      obtain ⟨u1, hu1⟩ := hf c s
      cases hr : f c s with
      | ok s1 =>
        rw [hr] at hu1
        obtain ⟨u2, hu2⟩ := ih s1
        refine ⟨u1 ++ u2, ?_⟩
        dsimp only
        rw [hu2]
        dsimp only [WRes.state] at hu1
        rw [hu1, List.append_assoc]
      | err k s1 =>
        rw [hr] at hu1
        exact ⟨u1, hu1⟩
      | out s1 =>
        rw [hr] at hu1
        exact ⟨u1, hu1⟩

theorem walkFuel_log_extend (p : FetchPort) (o : JiraOptions) (pfx : String) :
    ∀ (fuel : Nat) (key : String) (s : WalkState),
      ∃ u, (walkFuel fuel p o pfx key s).state.log = s.log ++ u := by
  intro fuel
  induction fuel with
  | zero => intro key s; exact ⟨[], by simp [walkFuel, WRes.state]⟩
  | succ fuel ih =>
    intro key s
    rcases hf : p.getFields key with _ | fields
    · rw [walkFuel_fetch_fail fuel p o pfx key s hf]
      exact ⟨[key], rfl⟩
    · by_cases hig : (mkWalkNode p key fields).is_status_ignore o.ignore_states = true
      · rw [walkFuel_status_stop fuel p o pfx key s fields hf hig]
        exact ⟨[key], rfl⟩
      · rw [Bool.not_eq_true] at hig
        by_cases htr : ((!o.traverse) && (!(strContains key (pfx ++ "-")))) = true
        · rw [walkFuel_traverse_stop fuel p o pfx key s fields hf hig htr]
          exact ⟨[key], rfl⟩
        · rw [Bool.not_eq_true] at htr
          rw [walkFuel_main fuel p o pfx key s fields hf hig htr]
          obtain ⟨u, hu⟩ := walkChildren_log_extend
            (fun c st => walkFuel fuel p o pfx c st) (fun c s1 => ih c s1) _ _
          refine ⟨key :: u, ?_⟩
          dsimp only at hu ⊢
          rw [hu]
          simp

theorem walkChildren_seen_mono (f : String → WalkState → WRes)
    (hf : ∀ c s1 x, x ∈ s1.graph.seen → x ∈ (f c s1).state.graph.seen) :
    ∀ (cs : List String) (s : WalkState) (x : String),
      x ∈ s.graph.seen → x ∈ (walkChildren f cs s).state.graph.seen := by
  intro cs
  induction cs with
  | nil => intro s x hx; exact hx
  | cons c rest ih =>
    intro s x hx
    unfold walkChildren
    by_cases h : s.graph.has_seen c = true
    · simp only [h, if_true]
      exact ih s x hx
    · simp only [h, if_false, Bool.false_eq_true]
      have hx1 := hf c s x hx
      cases hr : f c s with
      | ok s1 =>
        rw [hr] at hx1
        exact ih s1 x hx1
      | err k s1 =>
        rw [hr] at hx1
        exact hx1
      | out s1 =>
        rw [hr] at hx1
        exact hx1

theorem walkFuel_seen_mono (p : FetchPort) (o : JiraOptions) (pfx : String) :
    ∀ (fuel : Nat) (key : String) (s : WalkState) (x : String),
      x ∈ s.graph.seen → x ∈ (walkFuel fuel p o pfx key s).state.graph.seen := by
  intro fuel
  induction fuel with
  | zero => intro key s x hx; exact hx
  | succ fuel ih =>
    intro key s x hx
    rcases hf : p.getFields key with _ | fields
    · rw [walkFuel_fetch_fail fuel p o pfx key s hf]
      exact hx
    · by_cases hig : (mkWalkNode p key fields).is_status_ignore o.ignore_states = true
      · rw [walkFuel_status_stop fuel p o pfx key s fields hf hig]
        exact mem_mark_as_seen_of_mem _ _ _ hx
      · rw [Bool.not_eq_true] at hig
        by_cases htr : ((!o.traverse) && (!(strContains key (pfx ++ "-")))) = true
        · rw [walkFuel_traverse_stop fuel p o pfx key s fields hf hig htr]
          exact mem_mark_as_seen_of_mem _ _ _ hx
        · rw [Bool.not_eq_true] at htr
          rw [walkFuel_main fuel p o pfx key s fields hf hig htr]
          dsimp only
          apply walkChildren_seen_mono _ (fun c s1 y hy => ih c s1 y hy)
          rw [processLinks_seen, processSubtasks_seen, processEpicMembers_seen,
            add_issue_node_seen]
          exact mem_mark_as_seen_of_mem _ _ _ hx

/-! ## C2: no visited-check on entry to walk -/

/-- Claim C2 (amended): `walk` consults the visited set only when selecting
children, not on entry — invoked on an already-visited key it still fetches
that key (the fetch log gains the key immediately). -/
theorem C2_no_entry_guard (fuel : Nat) (p : FetchPort) (o : JiraOptions)
    (pfx key : String) (s : WalkState) (h : key ∈ s.graph.seen) :
    ∃ t, (walkFuel (fuel + 1) p o pfx key s).state.log = s.log ++ key :: t := by
  clear h
  rcases hf : p.getFields key with _ | fields
  · rw [walkFuel_fetch_fail fuel p o pfx key s hf]
    exact ⟨[], rfl⟩
  · by_cases hig : (mkWalkNode p key fields).is_status_ignore o.ignore_states = true
    · rw [walkFuel_status_stop fuel p o pfx key s fields hf hig]
      exact ⟨[], rfl⟩
    · rw [Bool.not_eq_true] at hig
      by_cases htr : ((!o.traverse) && (!(strContains key (pfx ++ "-")))) = true
      · rw [walkFuel_traverse_stop fuel p o pfx key s fields hf hig htr]
        exact ⟨[], rfl⟩
      · rw [Bool.not_eq_true] at htr
        rw [walkFuel_main fuel p o pfx key s fields hf hig htr]
        dsimp only
        obtain ⟨u, hu⟩ := walkChildren_log_extend
          (fun c st => walkFuel fuel p o pfx c st)
          (fun c s1 => walkFuel_log_extend p o pfx fuel c s1) _ _
        refine ⟨u, ?_⟩
        rw [hu]
        simp

def cexPortK : FetchPort :=
  { entries := [("K-1", plainFields "k")], epic := fun _ => [], base := "" }

def cexSeenState : WalkState :=
  ⟨{ nodes := [], links := [], seen := ["K-1"], blocked := [] }, []⟩

/-- Claim C2 as stated is false: with "K-1" already in the visited set,
`walk` on "K-1" still fetches it (the log grows) and still emits its node
(the node set grows), rather than returning immediately. -/
theorem C2_counterexample :
    "K-1" ∈ cexSeenState.graph.seen ∧
    (walkFuel 1 cexPortK defaultOptions "K" "K-1" cexSeenState).state.log ≠
      cexSeenState.log ∧
    (walkFuel 1 cexPortK defaultOptions "K" "K-1" cexSeenState).state.graph.nodes ≠
      cexSeenState.graph.nodes := by
  refine ⟨by decide, by decide, by decide⟩

/-- Witness for C2 (amended) at the same concrete state. -/
theorem C2_witness :
    ∃ t, (walkFuel 1 cexPortK defaultOptions "K" "K-1" cexSeenState).state.log =
      cexSeenState.log ++ "K-1" :: t :=
  C2_no_entry_guard 0 cexPortK defaultOptions "K" "K-1" cexSeenState (by decide)

/-! ## C9: fetch failures propagate, siblings are abandoned -/

def WRes.isErr : WRes → Bool
  | .err _ _ => true
  | _ => false

/-- Claim C9 (amended): an uncaught fetch failure while expanding a child
aborts the whole child loop — the failing result propagates and the
remaining sibling children are never walked. -/
theorem C9_error_propagation (f : String → WalkState → WRes) (c k : String)
    (cs : List String) (s s' : WalkState)
    (h1 : s.graph.has_seen c = false) (h2 : f c s = .err k s') :
    walkChildren f (c :: cs) s = .err k s' := by
  unfold walkChildren
  simp only [h1, if_false, Bool.false_eq_true]
  rw [h2]

def linkedFields (ls : List IssueLink) : Fields :=
  { plainFields "x" with issuelinks := ls }

def port9 : FetchPort :=
  { entries := [("P-1", linkedFields [outLink "relates" "P-2", outLink "relates" "P-3"]),
                ("P-3", plainFields "c")],
    epic := fun _ => [], base := "" }

/-- Claim C9 as stated is false: "P-2" does not resolve, and the run on
"P-1" ends in an uncaught error; the resolvable sibling "P-3" is never
fetched and no partial graph is returned. -/
theorem C9_counterexample :
    (port9.getFields "P-3").isSome = true ∧
    (build_graph_data 3 emptyJiraGraph "P-1" port9 defaultOptions).isErr = true ∧
    (build_graph_data 3 emptyJiraGraph "P-1" port9 defaultOptions).state.log =
      ["P-1", "P-2"] := by
  refine ⟨by decide, by decide, by decide⟩

/-- Witness for C9 (amended) at a concrete child list. -/
theorem C9_witness :
    walkChildren (fun c st => walkFuel 1 port9 defaultOptions "P" c st) ["P-2", "P-3"]
      ⟨emptyJiraGraph, ["P-1"]⟩ = .err "P-2" ⟨emptyJiraGraph, ["P-1", "P-2"]⟩ :=
  C9_error_propagation _ "P-2" "P-2" ["P-3"] _ _ (by decide) (by decide)

/-! ## C3: ignored status is a hard stop -/

/-- Claim C3: when the fetched item's status category is in the ignore
list, `walk` stops after marking it seen — no node is emitted, no edge is
added, no blocked marker is added, and no child is fetched. -/
theorem C3_status_ignore_stops (fuel : Nat) (p : FetchPort) (o : JiraOptions)
    (pfx key : String) (s : WalkState) (fields : Fields)
    (hf : p.getFields key = some fields)
    (hig : (mkWalkNode p key fields).is_status_ignore o.ignore_states = true) :
    walkFuel (fuel + 1) p o pfx key s = .ok ⟨s.graph.mark_as_seen key, s.log ++ [key]⟩ ∧
    (walkFuel (fuel + 1) p o pfx key s).state.graph.nodes = s.graph.nodes ∧
    (walkFuel (fuel + 1) p o pfx key s).state.graph.links = s.graph.links ∧
    (walkFuel (fuel + 1) p o pfx key s).state.graph.blocked = s.graph.blocked ∧
    (walkFuel (fuel + 1) p o pfx key s).state.log = s.log ++ [key] := by
  have h := walkFuel_status_stop fuel p o pfx key s fields hf hig
  refine ⟨h, ?_, ?_, ?_, ?_⟩ <;> rw [h] <;>
    simp [WRes.state, mark_as_seen_nodes, mark_as_seen_links, mark_as_seen_blocked]

def doneFields : Fields := { plainFields "d" with status := ⟨"Done", "Done"⟩ }

def port3 : FetchPort :=
  { entries := [("D-1", doneFields)], epic := fun _ => [], base := "" }

def opts3 : JiraOptions := { defaultOptions with ignore_states := ["DONE"] }

/-- Witness for C3: an issue whose category "Done" is ignored stops the
walk with only the seen-marking. -/
theorem C3_witness :
    walkFuel 1 port3 opts3 "D" "D-1" ⟨emptyJiraGraph, []⟩ =
      .ok ⟨emptyJiraGraph.mark_as_seen "D-1", ["D-1"]⟩ :=
  (C3_status_ignore_stops 0 port3 opts3 "D" "D-1" ⟨emptyJiraGraph, []⟩ doneFields
    (by decide) (by decide)).1

/-! ## C7: project scope check is a substring test -/

/-- Claim C7 (amended): with cross-project traversal disabled, `walk` stops
without emitting exactly when the starting prefix followed by a dash does
not occur as a substring of the identifier. -/
theorem C7_scope_substring_stop (fuel : Nat) (p : FetchPort) (o : JiraOptions)
    (pfx key : String) (s : WalkState) (fields : Fields)
    (hf : p.getFields key = some fields)
    (ht : o.traverse = false)
    (hc : strContains key (pfx ++ "-") = false) :
    walkFuel (fuel + 1) p o pfx key s = .ok ⟨s.graph.mark_as_seen key, s.log ++ [key]⟩ := by
  by_cases hig : (mkWalkNode p key fields).is_status_ignore o.ignore_states = true
  · exact walkFuel_status_stop fuel p o pfx key s fields hf hig
  · rw [Bool.not_eq_true] at hig
    exact walkFuel_traverse_stop fuel p o pfx key s fields hf hig (by simp [ht, hc])

def port7 : FetchPort :=
  { entries := [("ARC-1", linkedFields [outLink "relates" "XARC-5"]),
                ("XARC-5", plainFields "x")],
    epic := fun _ => [], base := "" }

def opts7 : JiraOptions := { defaultOptions with traverse := false }

/-- Claim C7 as stated is false: the code tests whether `PREFIX-` occurs
anywhere in the identifier, not whether the prefix matches.  Starting from
"ARC-1" with traversal disabled, the foreign-project identifier "XARC-5"
(prefix "XARC") still gets its node emitted because "ARC-" is an infix of
it. -/
theorem C7_counterexample :
    opts7.traverse = false ∧
    project_prefix_of "XARC-5" ≠ project_prefix_of "ARC-1" ∧
    hasNodeKey (build_graph_data 2 emptyJiraGraph "ARC-1" port7 opts7).state.graph.nodes
      "XARC-5" = true := by
  refine ⟨by decide, by decide, by decide⟩

def port7w : FetchPort :=
  { entries := [("B-2", plainFields "b")], epic := fun _ => [], base := "" }

/-- Witness for C7 (amended): "B-2" does not contain "ARC-", so the walk
stops with only the seen-marking. -/
theorem C7_witness :
    walkFuel 1 port7w opts7 "ARC" "B-2" ⟨emptyJiraGraph, []⟩ =
      .ok ⟨emptyJiraGraph.mark_as_seen "B-2", ["B-2"]⟩ :=
  C7_scope_substring_stop 0 port7w opts7 "ARC" "B-2" ⟨emptyJiraGraph, []⟩ (plainFields "b")
    (by decide) (by decide) (by decide)

/-! ## C1: closed finite relationship graphs -/

/-- Whether an optional embedded issue's key resolves on the port. -/
def stubResolves (p : FetchPort) (os : Option IssueStub) : Bool :=
  match os with
  | none => true
  | some st => decide (st.key ∈ portKeys p)

/-- A closed relationship graph: every key referenced by a subtask, a link
or an epic-member query of a resolvable issue is itself resolvable. -/
def closedPort (p : FetchPort) : Bool :=
  p.entries.all (fun kf =>
    kf.snd.subtasks.all (fun st => decide (st.key ∈ portKeys p)) &&
    kf.snd.issuelinks.all (fun l => stubResolves p l.outwardIssue && stubResolves p l.inwardIssue) &&
    (p.epic kf.fst).all (fun st => decide (st.key ∈ portKeys p)))

theorem getFields_mem (p : FetchPort) (k : String) (fields : Fields)
    (h : p.getFields k = some fields) : (k, fields) ∈ p.entries := by
  unfold FetchPort.getFields at h
  rcases he : p.entries.find? (fun e => e.fst == k) with _ | e
  · rw [he] at h; simp at h
  · rw [he] at h
    simp only [Option.map, Option.some.injEq] at h
    have h1 := List.find?_some he
    have h2 := List.mem_of_find?_eq_some he
    simp only [beq_iff_eq] at h1
    rw [← h1, ← h]
    exact h2

theorem mem_portKeys_of_getFields (p : FetchPort) (k : String) (fields : Fields)
    (h : p.getFields k = some fields) : k ∈ portKeys p := by
  have := getFields_mem p k fields h
  exact List.mem_map.mpr ⟨(k, fields), this, rfl⟩

theorem getFields_isSome_of_mem (p : FetchPort) (k : String) (h : k ∈ portKeys p) :
    ∃ fields, p.getFields k = some fields := by
  obtain ⟨e, he, hk⟩ := List.mem_map.mp h
  have : (p.entries.find? (fun e => e.fst == k)).isSome := by
    rw [List.find?_isSome]
    exact ⟨e, he, by simp [hk]⟩
  rcases hfind : p.entries.find? (fun e => e.fst == k) with _ | e2
  · rw [hfind] at this; simp at this
  · exact ⟨e2.snd, by unfold FetchPort.getFields; rw [hfind]; rfl⟩

theorem closedPort_subtask (p : FetchPort) (hc : closedPort p = true)
    (k : String) (fields : Fields) (h : p.getFields k = some fields) :
    ∀ st ∈ fields.subtasks, st.key ∈ portKeys p := by
  intro st hst
  have hmem := getFields_mem p k fields h
  unfold closedPort at hc
  rw [List.all_eq_true] at hc
  have := hc (k, fields) hmem
  simp only [Bool.and_eq_true, List.all_eq_true] at this
  exact of_decide_eq_true (this.1.1 st hst)

theorem closedPort_epic (p : FetchPort) (hc : closedPort p = true)
    (k : String) (fields : Fields) (h : p.getFields k = some fields) :
    ∀ st ∈ p.epic k, st.key ∈ portKeys p := by
  intro st hst
  have hmem := getFields_mem p k fields h
  unfold closedPort at hc
  rw [List.all_eq_true] at hc
  have := hc (k, fields) hmem
  simp only [Bool.and_eq_true, List.all_eq_true] at this
  exact of_decide_eq_true (this.2 st hst)

theorem closedPort_link (p : FetchPort) (hc : closedPort p = true)
    (k : String) (fields : Fields) (h : p.getFields k = some fields) :
    ∀ l ∈ fields.issuelinks, ∀ dir stub, linkDirection l = some (dir, stub) →
      stub.key ∈ portKeys p := by
  intro l hl dir stub hd
  have hmem := getFields_mem p k fields h
  unfold closedPort at hc
  rw [List.all_eq_true] at hc
  have := hc (k, fields) hmem
  simp only [Bool.and_eq_true, List.all_eq_true] at this
  have hlk := this.1.2 l hl
  unfold linkDirection at hd
  rcases ho : l.outwardIssue with _ | st1
  · rw [ho] at hd
    rcases hi : l.inwardIssue with _ | st2
    · rw [hi] at hd; simp at hd
    · rw [hi] at hd
      simp only [Option.some.injEq, Prod.mk.injEq] at hd
      have := hlk.2
      unfold stubResolves at this
      rw [hi] at this
      rw [← hd.2]
      exact of_decide_eq_true this
  · rw [ho] at hd
    simp only [Option.some.injEq, Prod.mk.injEq] at hd
    have := hlk.1
    unfold stubResolves at this
    rw [ho] at this
    rw [← hd.2]
    exact of_decide_eq_true this

/-- Invariant of a successful walk from an unvisited key: the fetch log
grows by a duplicate-free block of keys disjoint from the prior visited
set, headed by the walked key, and the visited set grows by exactly that
block.  (Trivial for failing or fuel-exhausted results.) -/
def okInv (key : String) (s : WalkState) : WRes → Prop
  | .ok s2 => ∃ d, s2.log = s.log ++ d ∧ d.Nodup ∧ (∀ x ∈ d, x ∉ s.graph.seen) ∧
      d.head? = some key ∧ (∀ x, x ∈ s2.graph.seen ↔ x ∈ s.graph.seen ∨ x ∈ d)
  | _ => True

/-- The same invariant for the child loop, plus: every listed child ends up
visited. -/
def okInvL (cs : List String) (s : WalkState) : WRes → Prop
  | .ok s2 => ∃ d, s2.log = s.log ++ d ∧ d.Nodup ∧ (∀ x ∈ d, x ∉ s.graph.seen) ∧
      (∀ x, x ∈ s2.graph.seen ↔ x ∈ s.graph.seen ∨ x ∈ d) ∧
      (∀ c ∈ cs, c ∈ s2.graph.seen)
  | _ => True

theorem walkChildren_okInv (f : String → WalkState → WRes)
    (hf : ∀ c s1, c ∉ s1.graph.seen → okInv c s1 (f c s1)) :
    ∀ (cs : List String) (s : WalkState), okInvL cs s (walkChildren f cs s) := by
  intro cs
  induction cs with
  | nil =>
    intro s
    unfold walkChildren okInvL
    exact ⟨[], by simp, List.nodup_nil, by simp, fun x => by simp, by simp⟩
  | cons c rest ih =>
    intro s
    unfold walkChildren
    by_cases h : s.graph.has_seen c = true
    · simp only [h, if_true]
      have hr := ih s
      cases hrw : walkChildren f rest s with
      | ok s2 =>
        rw [hrw] at hr
        unfold okInvL at hr ⊢
        obtain ⟨d, h1, h2, h3, h4, h5⟩ := hr
        refine ⟨d, h1, h2, h3, h4, ?_⟩
        intro c2 hc2
        rcases List.mem_cons.mp hc2 with rfl | hc3
        · exact (h4 c2).mpr (Or.inl (by simpa [JiraGraph.has_seen] using h))
        · exact h5 c2 hc3
      | err k s2 => rw [hrw] at hr; trivial
      | out s2 => rw [hrw] at hr; trivial
    · simp only [h, if_false, Bool.false_eq_true]
      have hcn : c ∉ s.graph.seen := by simpa [JiraGraph.has_seen] using h
      have hfc := hf c s hcn
      cases hrc : f c s with
      | ok s1 =>
        dsimp only
        rw [hrc] at hfc
        unfold okInv at hfc
        obtain ⟨d1, e1, e2, e3, e4, e5⟩ := hfc
        have hr := ih s1
        cases hrw : walkChildren f rest s1 with
        | ok s2 =>
          rw [hrw] at hr
          unfold okInvL at hr ⊢
          obtain ⟨d2, g1, g2, g3, g4, g5⟩ := hr
          refine ⟨d1 ++ d2, ?_, ?_, ?_, ?_, ?_⟩
          · rw [g1, e1, List.append_assoc]
          · refine List.Nodup.append e2 g2 ?_
            intro x hx1 hx2
            exact g3 x hx2 ((e5 x).mpr (Or.inr hx1))
          · intro x hx
            rcases List.mem_append.mp hx with hx1 | hx2
            · exact e3 x hx1
            · intro hxs
              exact g3 x hx2 ((e5 x).mpr (Or.inl hxs))
          · intro x
            rw [g4 x, e5 x]
            simp [List.mem_append, or_assoc]
          · intro c2 hc2
            rcases List.mem_cons.mp hc2 with rfl | hc3
            · have hc1 : c2 ∈ d1 := by
                cases d1 with
                | nil => simp at e4
                | cons a t =>
                  simp only [List.head?_cons, Option.some.injEq] at e4
                  simp [e4]
              exact (g4 c2).mpr (Or.inl ((e5 c2).mpr (Or.inr hc1)))
            · exact g5 c2 hc3
        | err k s2 => rw [hrw] at hr; trivial
        | out s2 => rw [hrw] at hr; trivial
      | err k s1 => dsimp only; trivial
      | out s1 => dsimp only; trivial

theorem walkFuel_okInv (p : FetchPort) (o : JiraOptions) (pfx : String) :
    ∀ (fuel : Nat) (key : String) (s : WalkState), key ∉ s.graph.seen →
      okInv key s (walkFuel fuel p o pfx key s) := by
  intro fuel
  induction fuel with
  | zero => intro key s _; trivial
  | succ fuel ih =>
    intro key s hk
    rcases hf : p.getFields key with _ | fields
    · rw [walkFuel_fetch_fail fuel p o pfx key s hf]; trivial
    · by_cases hig : (mkWalkNode p key fields).is_status_ignore o.ignore_states = true
      · rw [walkFuel_status_stop fuel p o pfx key s fields hf hig]
        unfold okInv
        refine ⟨[key], rfl, by simp, ?_, rfl, ?_⟩
        · intro x hx
          rw [List.mem_singleton] at hx
          rw [hx]
          exact hk
        · intro x
          rw [mem_mark_as_seen]
          simp
      · rw [Bool.not_eq_true] at hig
        by_cases htr : ((!o.traverse) && (!(strContains key (pfx ++ "-")))) = true
        · rw [walkFuel_traverse_stop fuel p o pfx key s fields hf hig htr]
          unfold okInv
          refine ⟨[key], rfl, by simp, ?_, rfl, ?_⟩
          · intro x hx
            rw [List.mem_singleton] at hx
            rw [hx]
            exact hk
          · intro x
            rw [mem_mark_as_seen]
            simp
        · rw [Bool.not_eq_true] at htr
          rw [walkFuel_main fuel p o pfx key s fields hf hig htr]
          dsimp only
          have hchil := walkChildren_okInv (fun c st => walkFuel fuel p o pfx c st)
            (fun c s1 hc => ih c s1 hc)
          set node := mkWalkNode p key fields with hnode
          set g1 := (s.graph.mark_as_seen key).add_issue_node node with hg1
          set stubs := (if node.is_epic && !o.ignore_epic then p.epic key else []) with hstubs
          set re := processEpicMembers p.base o node stubs g1 with hre
          set rs := processSubtasks p.base o node
            (if o.ignore_subtasks then [] else fields.subtasks) re.1 with hrs
          set rl := processLinks p.base o node fields.issuelinks rs.1 with hrl
          have hseq : rl.1.seen = (s.graph.mark_as_seen key).seen := by
            rw [hrl, processLinks_seen, hrs, processSubtasks_seen, hre,
              processEpicMembers_seen, hg1, add_issue_node_seen]
          have hinv := hchil (re.2 ++ rs.2 ++ rl.2) ⟨rl.1, s.log ++ [key]⟩
          cases hrw : walkChildren (fun c st => walkFuel fuel p o pfx c st)
              (re.2 ++ rs.2 ++ rl.2) ⟨rl.1, s.log ++ [key]⟩ with
          | ok s2 =>
            rw [hrw] at hinv
            unfold okInvL at hinv
            unfold okInv
            obtain ⟨d, h1, h2, h3, h4, h5⟩ := hinv
            dsimp only at h1 h3 h4
            have hkeyseen : key ∈ rl.1.seen := by
              rw [hseq]
              exact mem_mark_as_seen_self s.graph key
            refine ⟨key :: d, ?_, ?_, ?_, rfl, ?_⟩
            · rw [h1]
              simp
            · rw [List.nodup_cons]
              exact ⟨fun hkd => h3 key hkd hkeyseen, h2⟩
            · intro x hx
              rcases List.mem_cons.mp hx with rfl | hx2
              · exact hk
              · intro hxs
                apply h3 x hx2
                rw [hseq]
                exact mem_mark_as_seen_of_mem _ _ _ hxs
            · intro x
              rw [h4 x]
              rw [show (⟨rl.1, s.log ++ [key]⟩ : WalkState).graph.seen = rl.1.seen from rfl,
                hseq, mem_mark_as_seen]
              simp only [List.mem_cons]
              tauto
          | err k s2 => trivial
          | out s2 => trivial

/-- Number of resolvable keys not yet visited: the walk's termination
measure. -/
def unseenCount (p : FetchPort) (seen : List String) : Nat :=
  ((portKeys p).filter (fun k => decide (k ∉ seen))).length

theorem unseenCount_mono (p : FetchPort) (s1 s2 : List String)
    (h : ∀ x ∈ s1, x ∈ s2) : unseenCount p s2 ≤ unseenCount p s1 := by
  unfold unseenCount
  have hsub : List.Sublist ((portKeys p).filter (fun k => decide (k ∉ s2)))
      ((portKeys p).filter (fun k => decide (k ∉ s1))) := by
    have : ∀ l : List String, List.Sublist (l.filter (fun k => decide (k ∉ s2)))
        (l.filter (fun k => decide (k ∉ s1))) := by
      intro l
      induction l with
      | nil => simp
      | cons a t iht =>
        by_cases h2 : a ∈ s2
        · have hd2 : decide (a ∉ s2) = false := by simp [h2]
          rw [List.filter_cons, hd2]
          by_cases h1 : a ∈ s1
          · have hd1 : decide (a ∉ s1) = false := by simp [h1]
            rw [List.filter_cons, hd1]
            simpa using iht
          · have hd1 : decide (a ∉ s1) = true := by simp [h1]
            rw [List.filter_cons, hd1]
            simp only [if_true]
            exact List.Sublist.cons a iht
        · have h1 : a ∉ s1 := fun hx => h2 (h a hx)
          have hd2 : decide (a ∉ s2) = true := by simp [h2]
          have hd1 : decide (a ∉ s1) = true := by simp [h1]
          rw [List.filter_cons, hd2, List.filter_cons, hd1]
          simp only [if_true]
          exact List.Sublist.cons₂ a iht
    exact this (portKeys p)
  exact hsub.length_le

theorem unseenCount_strict (p : FetchPort) (seen : List String) (key : String)
    (hk : key ∈ portKeys p) (hn : key ∉ seen) :
    unseenCount p (seen ++ [key]) < unseenCount p seen := by
  unfold unseenCount
  have hsub : List.Sublist ((portKeys p).filter (fun k => decide (k ∉ seen ++ [key])))
      ((portKeys p).filter (fun k => decide (k ∉ seen))) := by
    have : ∀ l : List String, List.Sublist (l.filter (fun k => decide (k ∉ seen ++ [key])))
        (l.filter (fun k => decide (k ∉ seen))) := by
      intro l
      induction l with
      | nil => simp
      | cons a t iht =>
        by_cases h2 : a ∈ seen ++ [key]
        · have hd2 : decide (a ∉ seen ++ [key]) = false := by simp at h2 ⊢; tauto
          rw [List.filter_cons, hd2]
          by_cases h1 : a ∈ seen
          · have hd1 : decide (a ∉ seen) = false := by simp [h1]
            rw [List.filter_cons, hd1]
            simpa using iht
          · have hd1 : decide (a ∉ seen) = true := by simp [h1]
            rw [List.filter_cons, hd1]
            simp only [if_true]
            exact List.Sublist.cons a iht
        · have h1 : a ∉ seen := fun hx => h2 (List.mem_append.mpr (Or.inl hx))
          have hd2 : decide (a ∉ seen ++ [key]) = true := by simpa using h2
          have hd1 : decide (a ∉ seen) = true := by simp [h1]
          rw [List.filter_cons, hd2, List.filter_cons, hd1]
          simp only [if_true]
          exact List.Sublist.cons₂ a iht
    exact this (portKeys p)
  have hmem : key ∈ (portKeys p).filter (fun k => decide (k ∉ seen)) := by
    rw [List.mem_filter]
    exact ⟨hk, by simp [hn]⟩
  have hnot : key ∉ (portKeys p).filter (fun k => decide (k ∉ seen ++ [key])) := by
    rw [List.mem_filter]
    rintro ⟨-, hdec⟩
    simp at hdec
  rcases Nat.lt_or_ge (((portKeys p).filter (fun k => decide (k ∉ seen ++ [key]))).length)
      (((portKeys p).filter (fun k => decide (k ∉ seen))).length) with hlt | hge
  · exact hlt
  · exfalso
    have heq := hsub.eq_of_length (Nat.le_antisymm hsub.length_le hge)
    rw [heq] at hnot
    exact hnot hmem

theorem unseenCount_mark (p : FetchPort) (g : JiraGraph) (key : String)
    (hk : key ∈ portKeys p) (hn : key ∉ g.seen) :
    unseenCount p (g.mark_as_seen key).seen < unseenCount p g.seen := by
  unfold JiraGraph.mark_as_seen
  rw [if_neg (by simp [hn])]
  exact unseenCount_strict p g.seen key hk hn

theorem walkChildren_total (p : FetchPort) (f : String → WalkState → WRes) (N : Nat)
    (hft : ∀ c s1, c ∈ portKeys p → c ∉ s1.graph.seen →
      unseenCount p s1.graph.seen < N → ∃ s2, f c s1 = .ok s2)
    (hfm : ∀ c s1 x, x ∈ s1.graph.seen → x ∈ (f c s1).state.graph.seen) :
    ∀ (cs : List String) (s : WalkState), (∀ c ∈ cs, c ∈ portKeys p) →
      unseenCount p s.graph.seen < N →
      ∃ s2, walkChildren f cs s = .ok s2 ∧
        (∀ x ∈ s.graph.seen, x ∈ s2.graph.seen) ∧
        unseenCount p s2.graph.seen ≤ unseenCount p s.graph.seen := by
  intro cs
  induction cs with
  | nil =>
    intro s _ _
    exact ⟨s, rfl, fun x hx => hx, Nat.le_refl _⟩
  | cons c rest ih =>
    intro s hcs hN
    unfold walkChildren
    by_cases h : s.graph.has_seen c = true
    · simp only [h, if_true]
      exact ih s (fun c2 hc2 => hcs c2 (List.mem_cons.mpr (Or.inr hc2))) hN
    · simp only [h, if_false, Bool.false_eq_true]
      have hcn : c ∉ s.graph.seen := by simpa [JiraGraph.has_seen] using h
      obtain ⟨s1, hs1⟩ := hft c s (hcs c (List.mem_cons.mpr (Or.inl rfl))) hcn hN
      rw [hs1]
      have hmono : ∀ x ∈ s.graph.seen, x ∈ s1.graph.seen := by
        intro x hx
        have := hfm c s x hx
        rw [hs1] at this
        exact this
      have hle : unseenCount p s1.graph.seen ≤ unseenCount p s.graph.seen :=
        unseenCount_mono p _ _ hmono
      obtain ⟨s2, h2, h3, h4⟩ := ih s1
        (fun c2 hc2 => hcs c2 (List.mem_cons.mpr (Or.inr hc2)))
        (Nat.lt_of_le_of_lt hle hN)
      exact ⟨s2, h2, fun x hx => h3 x (hmono x hx), Nat.le_trans h4 hle⟩

theorem walkFuel_total (p : FetchPort) (o : JiraOptions) (pfx : String)
    (hc : closedPort p = true) :
    ∀ (fuel : Nat) (key : String) (s : WalkState), key ∈ portKeys p →
      key ∉ s.graph.seen → unseenCount p s.graph.seen < fuel →
      ∃ s2, walkFuel fuel p o pfx key s = .ok s2 := by
  intro fuel
  induction fuel with
  | zero => intro key s _ _ hN; omega
  | succ fuel ih =>
    intro key s hkp hks hN
    obtain ⟨fields, hf⟩ := getFields_isSome_of_mem p key hkp
    by_cases hig : (mkWalkNode p key fields).is_status_ignore o.ignore_states = true
    · exact ⟨_, walkFuel_status_stop fuel p o pfx key s fields hf hig⟩
    · rw [Bool.not_eq_true] at hig
      by_cases htr : ((!o.traverse) && (!(strContains key (pfx ++ "-")))) = true
      · exact ⟨_, walkFuel_traverse_stop fuel p o pfx key s fields hf hig htr⟩
      · rw [Bool.not_eq_true] at htr
        rw [walkFuel_main fuel p o pfx key s fields hf hig htr]
        dsimp only
        set node := mkWalkNode p key fields with hnode
        set g1 := (s.graph.mark_as_seen key).add_issue_node node with hg1
        set stubs := (if node.is_epic && !o.ignore_epic then p.epic key else []) with hstubs
        set re := processEpicMembers p.base o node stubs g1 with hre
        set rs := processSubtasks p.base o node
          (if o.ignore_subtasks then [] else fields.subtasks) re.1 with hrs
        set rl := processLinks p.base o node fields.issuelinks rs.1 with hrl
        have hseq : rl.1.seen = (s.graph.mark_as_seen key).seen := by
          rw [hrl, processLinks_seen, hrs, processSubtasks_seen, hre,
            processEpicMembers_seen, hg1, add_issue_node_seen]
        have hck : ∀ c ∈ re.2 ++ rs.2 ++ rl.2, c ∈ portKeys p := by
          intro c hc2
          rcases List.mem_append.mp hc2 with hc3 | hc4
          · rcases List.mem_append.mp hc3 with hc5 | hc6
            · obtain ⟨st, hst, hkey⟩ := processEpicMembers_children p.base o node stubs g1 c hc5
              rw [← hkey]
              rw [hstubs] at hst
              by_cases he : (node.is_epic && !o.ignore_epic) = true
              · rw [if_pos he] at hst
                exact closedPort_epic p hc key fields hf st hst
              · rw [if_neg he] at hst
                simp at hst
            · obtain ⟨st, hst, hkey⟩ := processSubtasks_children p.base o node _ re.1 c hc6
              rw [← hkey]
              by_cases hsb : o.ignore_subtasks = true
              · rw [if_pos hsb] at hst
                simp at hst
              · rw [if_neg hsb] at hst
                exact closedPort_subtask p hc key fields hf st hst
          · obtain ⟨l, hl, dir, stub, hdir, hkey⟩ :=
              processLinks_children_src p.base o node fields.issuelinks rs.1 c hc4
            rw [← hkey]
            exact closedPort_link p hc key fields hf l hl dir stub hdir
        have hlt : unseenCount p rl.1.seen < fuel := by
          rw [hseq]
          have := unseenCount_mark p s.graph key hkp hks
          omega
        obtain ⟨s2, h2, -, -⟩ := walkChildren_total p
          (fun c st => walkFuel fuel p o pfx c st) fuel
          (fun c s1 hc1 hc2 hc3 => ih c s1 hc1 hc2 hc3)
          (fun c s1 x hx => walkFuel_seen_mono p o pfx fuel c s1 x hx)
          (re.2 ++ rs.2 ++ rl.2) ⟨rl.1, s.log ++ [key]⟩ hck hlt
        exact ⟨s2, h2⟩

theorem strContains_empty_pat (s : String) : strContains s "" = true := by
  unfold strContains
  apply decide_eq_true
  exact ⟨[], s.data, by simp⟩

/-- Under the parser's default filter options, a link with an outward
target is never skipped: `process_link` returns the target key. -/
theorem process_link_snd_permissive (base : String) (o : JiraOptions) (g : JiraGraph)
    (node : JiraNode) (l : IssueLink) (stub : IssueStub)
    (hout : l.outwardIssue = some stub)
    (hdirs : "outward" ∈ o.directions)
    (h1 : o.ignore_states = []) (h2 : o.issue_excludes = []) (h3 : o.ignore_types = [])
    (h4 : o.includes = "") (h5 : o.excludes = []) :
    ∃ e, (process_link base o g node l).2 = some (stub.key, e) := by
  unfold process_link
  have hld : linkDirection l = some ("outward", stub) := by
    unfold linkDirection
    rw [hout]
  rw [hld]
  dsimp only
  have hig : should_ignore_issue o (stubNode base stub) = false := by
    unfold should_ignore_issue JiraNode.is_status_ignore
    rw [h1, h2, h3]
    simp
  rw [if_neg (not_not_intro hdirs), if_neg (by simp [hig]), if_neg (by simp [h1]),
    if_neg (by simp [h4, strContains_empty_pat]), if_neg (by simp [h5])]
  exact ⟨_, rfl⟩

/-- After a successful walk of `key`, every key that `process_link`
collected from `key`'s links has been visited. -/
theorem walkFuel_link_children_seen (p : FetchPort) (o : JiraOptions) (pfx : String)
    (fuel : Nat) (key : String) (s : WalkState) (fields : Fields) (s2 : WalkState)
    (hf : p.getFields key = some fields)
    (hig : (mkWalkNode p key fields).is_status_ignore o.ignore_states = false)
    (htr : ((!o.traverse) && (!(strContains key (pfx ++ "-")))) = false)
    (hok : walkFuel (fuel + 1) p o pfx key s = .ok s2) :
    ∀ k ∈ (processLinks p.base o (mkWalkNode p key fields) fields.issuelinks
      emptyJiraGraph).2, k ∈ s2.graph.seen := by
  rw [walkFuel_main fuel p o pfx key s fields hf hig htr] at hok
  dsimp only at hok
  set node := mkWalkNode p key fields with hnode
  set g1 := (s.graph.mark_as_seen key).add_issue_node node with hg1
  set stubs := (if node.is_epic && !o.ignore_epic then p.epic key else []) with hstubs
  set re := processEpicMembers p.base o node stubs g1 with hre
  set rs := processSubtasks p.base o node
    (if o.ignore_subtasks then [] else fields.subtasks) re.1 with hrs
  set rl := processLinks p.base o node fields.issuelinks rs.1 with hrl
  have hinv := walkChildren_okInv (fun c st => walkFuel fuel p o pfx c st)
    (fun c s1 hc => walkFuel_okInv p o pfx fuel c s1 hc)
    (re.2 ++ rs.2 ++ rl.2) ⟨rl.1, s.log ++ [key]⟩
  rw [hok] at hinv
  unfold okInvL at hinv
  obtain ⟨d, -, -, -, -, h5⟩ := hinv
  intro k hk
  apply h5
  apply List.mem_append.mpr
  right
  rw [hrl]
  rw [processLinks_snd_const p.base o node fields.issuelinks rs.1 emptyJiraGraph]
  exact hk

/-- Claim C1: on a closed finite relationship graph containing a cycle
between A and B (A carries an outward link to B, B links back to A), with
the parser's default filter options, a single walk of A completes within
fuel `number of issues + 1` — it terminates — and both A and B are fetched
exactly once. -/
theorem C1_cycle_single_fetch
    (p : FetchPort) (o : JiraOptions) (pfx A B : String) (fA fB : Fields)
    (lAB lBA : IssueLink) (stB stA : IssueStub)
    (hclosed : closedPort p = true)
    (hA : p.getFields A = some fA) (hB : p.getFields B = some fB)
    (hlAB : lAB ∈ fA.issuelinks) (houtAB : lAB.outwardIssue = some stB)
    (hkB : stB.key = B)
    (hlBA : lBA ∈ fB.issuelinks)
    (hback : lBA.outwardIssue = some stA ∨ lBA.inwardIssue = some stA)
    (hkA : stA.key = A)
    (h1 : o.ignore_states = []) (h2 : o.issue_excludes = []) (h3 : o.ignore_types = [])
    (h4 : o.includes = "") (h5 : o.excludes = []) (h6 : o.traverse = true)
    (h7 : "outward" ∈ o.directions) :
    ∃ s2, walkFuel (p.entries.length + 1) p o pfx A ⟨emptyJiraGraph, []⟩ = .ok s2 ∧
      s2.log.count A = 1 ∧ s2.log.count B = 1 := by
  have hAk : A ∈ portKeys p := mem_portKeys_of_getFields p A fA hA
  have hBk : B ∈ portKeys p := mem_portKeys_of_getFields p B fB hB
  have hcnt : unseenCount p (emptyJiraGraph.seen) < p.entries.length + 1 := by
    unfold unseenCount
    have hle := List.length_filter_le (fun k => decide (k ∉ emptyJiraGraph.seen)) (portKeys p)
    have hpk : (portKeys p).length = p.entries.length := List.length_map _ _
    omega
  obtain ⟨s2, hok⟩ := walkFuel_total p o pfx hclosed (p.entries.length + 1) A
    ⟨emptyJiraGraph, []⟩ hAk (by simp [emptyJiraGraph]) hcnt
  have hinv := walkFuel_okInv p o pfx (p.entries.length + 1) A ⟨emptyJiraGraph, []⟩
    (by simp [emptyJiraGraph])
  rw [hok] at hinv
  unfold okInv at hinv
  obtain ⟨d, hd1, hd2, hd3, hd4, hd5⟩ := hinv
  have higA : (mkWalkNode p A fA).is_status_ignore o.ignore_states = false := by
    unfold JiraNode.is_status_ignore
    rw [h1]
    simp
  have htrA : ((!o.traverse) && (!(strContains A (pfx ++ "-")))) = false := by
    rw [h6]
    simp
  have hBseen : B ∈ s2.graph.seen := by
    apply walkFuel_link_children_seen p o pfx p.entries.length A ⟨emptyJiraGraph, []⟩ fA s2
      hA higA htrA hok
    obtain ⟨e, he⟩ := process_link_snd_permissive p.base o emptyJiraGraph
      (mkWalkNode p A fA) lAB stB houtAB h7 h1 h2 h3 h4 h5
    have hmem := processLinks_child_mem p.base o (mkWalkNode p A fA) lAB stB.key e he
      fA.issuelinks emptyJiraGraph hlAB
    rw [hkB] at hmem
    exact hmem
  have hdlog : s2.log = d := by
    rw [hd1]
    simp
  have hAd : A ∈ d := by
    cases d with
    | nil => simp at hd4
    | cons a t =>
      simp only [List.head?_cons, Option.some.injEq] at hd4
      simp [hd4]
  have hBd : B ∈ d := by
    rcases (hd5 B).mp hBseen with hc | hc
    · simp [emptyJiraGraph] at hc
    · exact hc
  refine ⟨s2, hok, ?_, ?_⟩
  · rw [hdlog]
    exact List.count_eq_one_of_mem hd2 hAd
  · rw [hdlog]
    exact List.count_eq_one_of_mem hd2 hBd

def cyclePort : FetchPort :=
  { entries := [("P-1", linkedFields [outLink "relates" "P-2"]),
                ("P-2", linkedFields [outLink "relates" "P-1"])],
    epic := fun _ => [], base := "" }

/-- Witness for C1: the two-issue cycle P-1 ↔ P-2 under default options. -/
theorem C1_witness :
    ∃ s2, walkFuel (cyclePort.entries.length + 1) cyclePort defaultOptions "P" "P-1"
      ⟨emptyJiraGraph, []⟩ = .ok s2 ∧ s2.log.count "P-1" = 1 ∧ s2.log.count "P-2" = 1 :=
  C1_cycle_single_fetch cyclePort defaultOptions "P" "P-1" "P-2"
    (linkedFields [outLink "relates" "P-2"]) (linkedFields [outLink "relates" "P-1"])
    (outLink "relates" "P-2") (outLink "relates" "P-1") (stubOf "P-2") (stubOf "P-1")
    (by decide) (by decide) (by decide) (by decide) (by decide) (by decide)
    (by decide) (Or.inl (by decide)) (by decide)
    rfl rfl rfl rfl rfl rfl (by decide)
